import Mathlib

/-!
Verification of the ContextKeeper project store (`src/project_manager.py`).

The Python module is a flat data-access layer: an in-memory dict of
`ProjectConfig` records keyed by `project_id`, mirrored to one JSON file
per record in a configuration directory, with write-through persistence
on every mutating operation and a single "focused project" pointer.

Embedding choices:
* Python dicts that preserve insertion order (`self.projects`, and the
  set of files of the config directory) are modelled as association
  lists `List (String × _)`; `dictInsert` updates an existing key in
  place (keeping its position, as Python does) or appends a new one.
* The JSON document produced by `ProjectConfig.to_dict` is modelled by
  the structure `ProjectDict` (one field per key); `json.dump` writing a
  file is `dictInsert` on the disk list. A file of the directory either
  holds such a document or is `invalid` (fails `json.load`, or raises
  inside `ProjectConfig.from_dict` / the dataclass constructors); both
  failure modes are caught by the same `except` in `load_all_projects`.
* `metadata: Dict[str, Any]` is opaque to every operation and is passed
  through serialization unchanged; its values are modelled as strings.
* `uuid.uuid4().hex` and `datetime.now().isoformat()` are collaborator
  inputs; each call site receives the value it would have read as an
  explicit argument (two `now` arguments when the Python body calls
  `datetime.now()` twice).
* `os.path.abspath` is an arbitrary function argument `abspath`.
-/

inductive ProjectStatus where
  | ACTIVE
  | PAUSED
  | ARCHIVED
deriving DecidableEq

/-- The string tag of a status (`ProjectStatus.value` in the source). -/
def ProjectStatus.value : ProjectStatus → String
  | .ACTIVE => "active"
  | .PAUSED => "paused"
  | .ARCHIVED => "archived"

/-- The enum constructor `ProjectStatus(s)`: `none` models the `ValueError`
raised on an unknown tag. -/
def ProjectStatus.ofString (s : String) : Option ProjectStatus :=
  if s = "active" then some .ACTIVE
  else if s = "paused" then some .PAUSED
  else if s = "archived" then some .ARCHIVED
  else none

structure Decision where
  id : String
  decision : String
  reasoning : String
  timestamp : String
  tags : List String := []
deriving DecidableEq

structure Objective where
  id : String
  title : String
  description : String
  created_at : String
  completed_at : Option String := none
  status : String := "pending"
  priority : String := "medium"
deriving DecidableEq

structure ProjectConfig where
  project_id : String
  name : String
  root_path : String
  watch_dirs : List String
  status : ProjectStatus
  created_at : String
  last_active : String
  description : String := ""
  file_extensions : List String := [".py", ".js", ".jsx", ".ts", ".tsx", ".md", ".json", ".yaml"]
  decisions : List Decision := []
  objectives : List Objective := []
  metadata : List (String × String) := []
deriving DecidableEq

/-- Flat dictionary form of a `Decision`, as produced by `asdict`. -/
structure DecisionDict where
  id : String
  decision : String
  reasoning : String
  timestamp : String
  tags : List String
deriving DecidableEq

/-- Flat dictionary form of an `Objective`, as produced by `asdict`. -/
structure ObjectiveDict where
  id : String
  title : String
  description : String
  created_at : String
  completed_at : Option String
  status : String
  priority : String
deriving DecidableEq

/-- The JSON document written for one project: one field per key of the
dict built by `ProjectConfig.to_dict` (status as its string tag, nested
entities flattened). -/
structure ProjectDict where
  project_id : String
  name : String
  root_path : String
  watch_dirs : List String
  status : String
  created_at : String
  last_active : String
  description : String
  file_extensions : List String
  decisions : List DecisionDict
  objectives : List ObjectiveDict
  metadata : List (String × String)
deriving DecidableEq

def Decision.asdict (d : Decision) : DecisionDict :=
  ⟨d.id, d.decision, d.reasoning, d.timestamp, d.tags⟩

def Objective.asdict (o : Objective) : ObjectiveDict :=
  ⟨o.id, o.title, o.description, o.created_at, o.completed_at, o.status, o.priority⟩

/-- `ProjectConfig.to_dict`: `asdict(self)` with the status replaced by its
string tag and the nested dataclasses flattened. -/
def ProjectConfig.to_dict (p : ProjectConfig) : ProjectDict :=
  { project_id := p.project_id
    name := p.name
    root_path := p.root_path
    watch_dirs := p.watch_dirs
    status := p.status.value
    created_at := p.created_at
    last_active := p.last_active
    description := p.description
    file_extensions := p.file_extensions
    decisions := p.decisions.map Decision.asdict
    objectives := p.objectives.map Objective.asdict
    metadata := p.metadata }

def Decision.ofDict (d : DecisionDict) : Decision :=
  ⟨d.id, d.decision, d.reasoning, d.timestamp, d.tags⟩

def Objective.ofDict (o : ObjectiveDict) : Objective :=
  ⟨o.id, o.title, o.description, o.created_at, o.completed_at, o.status, o.priority⟩

/-- `ProjectConfig.from_dict`: parses the status tag (raising — `none` —
on an unknown tag) and rebuilds the nested entities. -/
def ProjectConfig.from_dict (d : ProjectDict) : Option ProjectConfig :=
  match ProjectStatus.ofString d.status with
  | none => none
  | some st =>
      some { project_id := d.project_id
             name := d.name
             root_path := d.root_path
             watch_dirs := d.watch_dirs
             status := st
             created_at := d.created_at
             last_active := d.last_active
             description := d.description
             file_extensions := d.file_extensions
             decisions := d.decisions.map Decision.ofDict
             objectives := d.objectives.map Objective.ofDict
             metadata := d.metadata }

/-- Content of one file of the config directory: either a well-formed
project document, or anything that makes `json.load` or
`ProjectConfig.from_dict` raise. -/
inductive FileContent where
  | invalid
  | record (d : ProjectDict)
deriving DecidableEq

/-- First-match lookup in an insertion-ordered dict. -/
def alookup {α : Type} : List (String × α) → String → Option α
  | [], _ => none
  | (k, v) :: rest, key => if k = key then some v else alookup rest key

/-- Python dict assignment `m[k] = v`: overwrite in place (keeping the
key's position) when the key is present, append when absent. A Python
dict never holds a key twice, so on the duplicate-free lists that model
dicts this replace-first-occurrence recursion is exact. -/
def dictInsert {α : Type} : List (String × α) → String → α → List (String × α)
  | [], k, v => [(k, v)]
  | kv :: rest, k, v =>
      if kv.1 = k then (k, v) :: rest else kv :: dictInsert rest k v

/-- State of a `ProjectManager`: the in-memory map, the focus pointer and
the files of its config directory (name → content). -/
structure ProjectManager where
  projects : List (String × ProjectConfig) := []
  focused_project_id : Option String := none
  disk : List (String × FileContent) := []
deriving DecidableEq

/-- `save_project`: serialize the full record and overwrite
`<config_dir>/<project_id>.json`. -/
def ProjectManager.save_project (m : ProjectManager) (p : ProjectConfig) : ProjectManager :=
  { m with disk := dictInsert m.disk (p.project_id ++ ".json") (.record p.to_dict) }

/-- One iteration of the load loop: `json.load` then
`ProjectConfig.from_dict`, both failures caught by the same `except`. -/
def parseFile : FileContent → Option ProjectConfig
  | .invalid => none
  | .record d => ProjectConfig.from_dict d

/-- Suffix test of the `glob("*.json")` pattern on a file name, over the
character list of the name (the filesystem collaborator's matching). -/
def endsWithJson (name : String) : Bool :=
  name.toList.reverse.take 5 == ".json".toList.reverse

/-- Body of the load loop for one file: a file that parses is stored
under the `project_id` found inside it, a file that raises is skipped. -/
def loadStep (acc : ProjectManager) (f : String × FileContent) : ProjectManager :=
  match parseFile f.2 with
  | some p => { acc with projects := dictInsert acc.projects p.project_id p }
  | none => acc

/-- Tail of `load_all_projects`: if no project is focused and some loaded
project is active, focus the first active one (map iteration order). -/
def selectFocus (m1 : ProjectManager) : ProjectManager :=
  match m1.focused_project_id with
  | some _ => m1
  | none =>
      if m1.projects.isEmpty then m1
      else
        match m1.projects.filter (fun kp => kp.2.status = ProjectStatus.ACTIVE) with
        | [] => m1
        | a :: _ => { m1 with focused_project_id := some a.2.project_id }

/-- `load_all_projects`: parse every `*.json` file of the directory,
skipping failures, keying each parsed record by the `project_id` found in
the file; then run the focus-selection tail. -/
def ProjectManager.load_all_projects (m : ProjectManager) : ProjectManager :=
  selectFocus ((m.disk.filter (fun f => endsWithJson f.1)).foldl loadStep m)

/-- `ProjectManager.__init__` on a directory holding `files`: empty map,
no focus, then `load_all_projects`. -/
def initManager (files : List (String × FileContent)) : ProjectManager :=
  ProjectManager.load_all_projects { projects := [], focused_project_id := none, disk := files }

/-- `create_project`: fresh id `proj_<uuid hex[:12]>`, watch dirs
defaulting to `[root_path]`, paths made absolute, record inserted and
saved, focused when it is the only record. -/
def ProjectManager.create_project (m : ProjectManager) (name root_path : String)
    (watch_dirs : Option (List String)) (description : String)
    (abspath : String → String) (uuid_hex now1 now2 : String) :
    ProjectConfig × ProjectManager :=
  let project_id := "proj_" ++ uuid_hex.take 12
  let wd0 := match watch_dirs with
    | none => [root_path]
    | some ws => ws
  let project : ProjectConfig :=
    { project_id := project_id
      name := name
      root_path := abspath root_path
      watch_dirs := wd0.map abspath
      status := .ACTIVE
      created_at := now1
      last_active := now2
      description := description }
  let m1 := { m with projects := dictInsert m.projects project_id project }
  let m2 := m1.save_project project
  let m3 := if m2.projects.length = 1 then
      { m2 with focused_project_id := some project_id }
    else m2
  (project, m3)

def ProjectManager.get_project (m : ProjectManager) (project_id : String) :
    Option ProjectConfig :=
  alookup m.projects project_id

/-- `get_focused_project`: the source guards with Python truthiness —
`if self.focused_project_id:` is false for `None` and for the empty
string alike — so an empty-string focus resolves to `None`, not through
the map. -/
def ProjectManager.get_focused_project (m : ProjectManager) : Option ProjectConfig :=
  match m.focused_project_id with
  | some pid => if pid = "" then none else alookup m.projects pid
  | none => none

/-- `set_focus`: fails on an unknown id; otherwise points the focus at the
project, re-stamps its `last_active` and saves it. -/
def ProjectManager.set_focus (m : ProjectManager) (project_id now : String) :
    Bool × ProjectManager :=
  match alookup m.projects project_id with
  | some project =>
      let p := { project with last_active := now }
      let m1 := { m with focused_project_id := some project_id
                         projects := dictInsert m.projects project_id p }
      (true, m1.save_project p)
  | none => (false, m)

/-- `update_status`: fails on an unknown id; otherwise sets the status,
re-stamps `last_active` and saves. -/
def ProjectManager.update_status (m : ProjectManager) (project_id : String)
    (status : ProjectStatus) (now : String) : Bool × ProjectManager :=
  match alookup m.projects project_id with
  | some project =>
      let p := { project with status := status, last_active := now }
      let m1 := { m with projects := dictInsert m.projects project_id p }
      (true, m1.save_project p)
  | none => (false, m)

def ProjectManager.pause_project (m : ProjectManager) (project_id now : String) :
    Bool × ProjectManager :=
  m.update_status project_id .PAUSED now

def ProjectManager.resume_project (m : ProjectManager) (project_id now : String) :
    Bool × ProjectManager :=
  m.update_status project_id .ACTIVE now

def ProjectManager.archive_project (m : ProjectManager) (project_id now : String) :
    Bool × ProjectManager :=
  m.update_status project_id .ARCHIVED now

/-- `add_decision`: `None` on an unknown project; otherwise appends a fresh
decision, re-stamps the project and saves. -/
def ProjectManager.add_decision (m : ProjectManager) (project_id decision reasoning : String)
    (tags : Option (List String)) (uuid_hex now1 now2 : String) :
    Option Decision × ProjectManager :=
  match alookup m.projects project_id with
  | none => (none, m)
  | some project =>
      let d : Decision :=
        { id := "dec_" ++ uuid_hex.take 8
          decision := decision
          reasoning := reasoning
          timestamp := now1
          tags := tags.getD [] }
      let p := { project with decisions := project.decisions ++ [d], last_active := now2 }
      let m1 := { m with projects := dictInsert m.projects project_id p }
      (some d, m1.save_project p)

/-- `add_objective`: `None` on an unknown project; otherwise appends a fresh
objective (status `pending`), re-stamps the project and saves. -/
def ProjectManager.add_objective (m : ProjectManager) (project_id title description priority : String)
    (uuid_hex now1 now2 : String) : Option Objective × ProjectManager :=
  match alookup m.projects project_id with
  | none => (none, m)
  | some project =>
      let o : Objective :=
        { id := "obj_" ++ uuid_hex.take 8
          title := title
          description := description
          created_at := now1
          priority := priority }
      let p := { project with objectives := project.objectives ++ [o], last_active := now2 }
      let m1 := { m with projects := dictInsert m.projects project_id p }
      (some o, m1.save_project p)

/-- The `for obj in project.objectives` loop of `complete_objective`:
mutate the first objective whose id matches, `none` when none does. -/
def completeFirst (objs : List Objective) (objective_id now : String) :
    Option (List Objective) :=
  match objs with
  | [] => none
  | o :: rest =>
      if o.id = objective_id then
        some ({ o with status := "completed", completed_at := some now } :: rest)
      else
        (completeFirst rest objective_id now).map (o :: ·)

/-- `complete_objective`: fails on an unknown project or unmatched
objective id; on the first match sets `status`/`completed_at`, re-stamps
the project and saves. -/
def ProjectManager.complete_objective (m : ProjectManager) (project_id objective_id : String)
    (now1 now2 : String) : Bool × ProjectManager :=
  match alookup m.projects project_id with
  | none => (false, m)
  | some project =>
      match completeFirst project.objectives objective_id now1 with
      | none => (false, m)
      | some objs =>
          let p := { project with objectives := objs, last_active := now2 }
          let m1 := { m with projects := dictInsert m.projects project_id p }
          (true, m1.save_project p)

/-- Projection of one decision in `export_context`. -/
structure DecisionOut where
  decision : String
  reasoning : String
  timestamp : String
  tags : List String
deriving DecidableEq

/-- Projection of one pending objective in `export_context`. -/
structure ObjectiveOut where
  title : String
  description : String
  priority : String
  created_at : String
deriving DecidableEq

/-- The `"project"` block of `export_context`. -/
structure ProjectOut where
  id : String
  name : String
  description : String
  root_path : String
  status : String
  last_active : String
deriving DecidableEq

/-- The `"statistics"` block of `export_context`. -/
structure ContextStats where
  total_decisions : Nat
  total_objectives : Nat
  completed_objectives : Nat
  watch_directories : Nat
deriving DecidableEq

structure ExportContext where
  project : ProjectOut
  recent_decisions : List DecisionOut
  pending_objectives : List ObjectiveOut
  statistics : ContextStats
deriving DecidableEq

def Decision.toOut (d : Decision) : DecisionOut :=
  ⟨d.decision, d.reasoning, d.timestamp, d.tags⟩

def Objective.toOut (o : Objective) : ObjectiveOut :=
  ⟨o.title, o.description, o.priority, o.created_at⟩

/-- Comparison passed to `sorted(..., key=lambda d: d.timestamp,
reverse=True)`: both that call and `mergeSort` with this relation are
stable descending sorts by timestamp. -/
def decisionGE (d1 d2 : Decision) : Bool :=
  decide (d2.timestamp ≤ d1.timestamp)

/-- `export_context` does not mutate the store: it is a pure projection of
the record (the Python body only reads `project`). `none` models the empty
dict returned for an unknown id. -/
def ProjectManager.export_context (m : ProjectManager) (project_id : String) :
    Option ExportContext :=
  match alookup m.projects project_id with
  | none => none
  | some project =>
      let recent := (project.decisions.mergeSort decisionGE).take 10
      let pending := project.objectives.filter (fun o => decide (o.status ≠ "completed"))
      some
        { project :=
            ⟨project.project_id, project.name, project.description,
             project.root_path, project.status.value, project.last_active⟩
          recent_decisions := recent.map Decision.toOut
          pending_objectives := pending.map Objective.toOut
          statistics :=
            ⟨project.decisions.length, project.objectives.length,
             (project.objectives.filter (fun o => decide (o.status = "completed"))).length,
             project.watch_dirs.length⟩ }

/-- Lowercase hexadecimal digit, the alphabet of `uuid4().hex`. -/
def isHexChar (c : Char) : Bool :=
  c.isDigit || ('a' ≤ c && c ≤ 'f')

/-- One public mutating operation of the store, carrying the values its
collaborators (uuid source, clock, `os.path.abspath`) would supply. -/
inductive Op where
  | create (name root_path : String) (watch_dirs : Option (List String))
      (description : String) (abspath : String → String) (uuid_hex now1 now2 : String)
  | setFocus (project_id now : String)
  | updateStatus (project_id : String) (status : ProjectStatus) (now : String)
  | pause (project_id now : String)
  | resume (project_id now : String)
  | archive (project_id now : String)
  | addDecision (project_id decision reasoning : String)
      (tags : Option (List String)) (uuid_hex now1 now2 : String)
  | addObjective (project_id title description priority uuid_hex now1 now2 : String)
  | completeObjective (project_id objective_id now1 now2 : String)

/-- State reached after one public mutating operation. -/
def step (m : ProjectManager) : Op → ProjectManager
  | .create n r w d a u t1 t2 => (m.create_project n r w d a u t1 t2).2
  | .setFocus pid now => (m.set_focus pid now).2
  | .updateStatus pid st now => (m.update_status pid st now).2
  | .pause pid now => (m.pause_project pid now).2
  | .resume pid now => (m.resume_project pid now).2
  | .archive pid now => (m.archive_project pid now).2
  | .addDecision pid d r tags u t1 t2 => (m.add_decision pid d r tags u t1 t2).2
  | .addObjective pid t d pr u t1 t2 => (m.add_objective pid t d pr u t1 t2).2
  | .completeObjective pid oid t1 t2 => (m.complete_objective pid oid t1 t2).2

/-- State reached after a sequence of public mutating operations. -/
def run (m : ProjectManager) (ops : List Op) : ProjectManager :=
  ops.foldl step m

/-- The unique-id collaborator contract at one `create` call: the id it
supplies does not collide with an existing project (the source trusts
`uuid4` for this and would silently overwrite on a collision). -/
def opFresh (m : ProjectManager) : Op → Bool
  | .create _ _ _ _ _ u _ _ => (alookup m.projects ("proj_" ++ u.take 12)).isNone
  | _ => true

/-- Every `create` of the sequence receives a non-colliding id. -/
def runFresh : ProjectManager → List Op → Bool
  | _, [] => true
  | m, op :: ops => opFresh m op && runFresh (step m op) ops

/-- Whether the operation is `add_decision` on the given project. -/
def isAddDecisionFor (op : Op) (pid : String) : Bool :=
  match op with
  | .addDecision pid' _ _ _ _ _ _ => pid' == pid
  | _ => false

/-- Whether the operation is `add_objective` on the given project. -/
def isAddObjectiveFor (op : Op) (pid : String) : Bool :=
  match op with
  | .addObjective pid' _ _ _ _ _ _ => pid' == pid
  | _ => false

/-- Keys of the in-memory map are never duplicated (Python dicts cannot
hold a key twice). -/
def NodupKeys {α : Type} (m : List (String × α)) : Prop :=
  (m.map Prod.fst).Nodup

/-- Each record sits in the map under its own `project_id`. -/
def KeysOK (m : ProjectManager) : Prop :=
  ∀ kp ∈ m.projects, kp.2.project_id = kp.1

/-- Write-through: every in-memory record has an on-disk file
`<project_id>.json` holding exactly its current serialization. -/
def DiskSync (m : ProjectManager) : Prop :=
  ∀ kp ∈ m.projects, alookup m.disk (kp.1 ++ ".json") = some (.record kp.2.to_dict)

/-- The store invariant carried through every operation. -/
def StoreInv (m : ProjectManager) : Prop :=
  NodupKeys m.projects ∧ KeysOK m ∧ DiskSync m

/-- The focus pointer is unset or references a present record. -/
def FocusOK (m : ProjectManager) : Prop :=
  ∀ pid, m.focused_project_id = some pid → (alookup m.projects pid).isSome = true

/-- Monotone evolution of one objective entry: identity fields frozen,
completion never undone. -/
def ObjMono (o o' : Objective) : Prop :=
  o'.id = o.id ∧ o'.title = o.title ∧ o'.description = o.description ∧
  o'.created_at = o.created_at ∧ o'.priority = o.priority ∧
  (o.status = "completed" → o'.status = "completed")

/-- Monotone evolution of one record: decisions only appended, objectives
only appended and entry-wise monotone. -/
def Mono (p p' : ProjectConfig) : Prop :=
  (∃ t, p'.decisions = p.decisions ++ t) ∧
  p.objectives.length ≤ p'.objectives.length ∧
  ∀ i (h1 : i < p.objectives.length) (h2 : i < p'.objectives.length),
    ObjMono (p.objectives.get ⟨i, h1⟩) (p'.objectives.get ⟨i, h2⟩)

/-- A record file whose content parses carries the name `<project_id>.json`
for the `project_id` stored inside it. -/
def fileNameOK (f : String × FileContent) : Bool :=
  match parseFile f.2 with
  | some p => f.1 == p.project_id ++ ".json"
  | none => true

/-- A well-formed config directory: file names are distinct (as in a real
directory) and each parsable file is named after the id it contains. -/
def FilesOK (files : List (String × FileContent)) : Prop :=
  (files.map Prod.fst).Nodup ∧ ∀ f ∈ files, fileNameOK f = true

/-- The map entries the load phase is specified to produce: one entry per
parsable `*.json` file, keyed by the `project_id` inside the file. -/
def parsedEntries (files : List (String × FileContent)) :
    List (String × ProjectConfig) :=
  (files.filter (fun f => endsWithJson f.1)).filterMap
    (fun f => (parseFile f.2).map (fun p => (p.project_id, p)))

/-- Ids of the parsable `*.json` files of a directory. -/
def parsedIds (files : List (String × FileContent)) : List String :=
  (parsedEntries files).map Prod.fst

/-- Concrete store used to exercise `complete_objective`: one project
holding one pending objective. -/
def cexManager : ProjectManager :=
  { projects :=
      [("proj_aaaaaaaaaaaa",
        { project_id := "proj_aaaaaaaaaaaa"
          name := "Alpha"
          root_path := "/tmp/alpha"
          watch_dirs := ["/tmp/alpha"]
          status := .ACTIVE
          created_at := "2025-01-01T00:00:00"
          last_active := "2025-01-01T00:00:00"
          objectives := [{ id := "obj_11111111"
                           title := "Ship v1"
                           description := ""
                           created_at := "2025-01-01T00:00:00" }] })]
    focused_project_id := some "proj_aaaaaaaaaaaa"
    disk := [] }

/-- `cexManager` after a first successful `complete_objective`. -/
def cexManager1 : ProjectManager :=
  (cexManager.complete_objective "proj_aaaaaaaaaaaa" "obj_11111111"
    "2025-01-02T00:00:00" "2025-01-02T00:00:01").2

/-- Sample record document used by concrete scenarios. -/
def w1dict : ProjectDict :=
  { project_id := "p1", name := "Alpha", root_path := "/tmp/alpha",
    watch_dirs := ["/tmp/alpha"], status := "active",
    created_at := "2025-01-01T00:00:00", last_active := "2025-01-01T00:00:00",
    description := "", file_extensions := [".py"], decisions := [], objectives := [],
    metadata := [] }

/-- The record `w1dict` parses to. -/
def w1proj : ProjectConfig :=
  { project_id := "p1", name := "Alpha", root_path := "/tmp/alpha",
    watch_dirs := ["/tmp/alpha"], status := .ACTIVE,
    created_at := "2025-01-01T00:00:00", last_active := "2025-01-01T00:00:00",
    description := "", file_extensions := [".py"], decisions := [], objectives := [],
    metadata := [] }

/-- A config directory holding one valid and one malformed record file. -/
def w1files : List (String × FileContent) :=
  [("p1.json", .record w1dict), ("bad.json", .invalid)]

/-- A config directory whose single record file name does not match the
`project_id` stored inside it. -/
def w10files : List (String × FileContent) :=
  [("X.json", .record w1dict)]

/-- A store holding `w1proj`, focus unset. -/
def w5m : ProjectManager :=
  { projects := [("p1", w1proj)], focused_project_id := none, disk := [] }

/-- A store initialized from a directory whose single record file carries
`project_id = ""` — nothing in the source validates the id format, so
this state is reachable from a hand-written config file. -/
def c5cexManager : ProjectManager :=
  initManager [("e.json", FileContent.record { w1dict with project_id := "" })]

/-- A record carrying one already-completed objective. -/
def w8proj : ProjectConfig :=
  { project_id := "p1", name := "Alpha", root_path := "/a", watch_dirs := ["/a"],
    status := .ACTIVE, created_at := "T0", last_active := "T0",
    objectives := [{ id := "o1", title := "x", description := "", created_at := "T0",
                     completed_at := some "T1", status := "completed" }] }

/-- A store holding `w8proj`. -/
def w8m : ProjectManager :=
  { projects := [("p1", w8proj)], focused_project_id := none, disk := [] }

/-- A record carrying 15 decisions with increasing timestamps. -/
def w3proj : ProjectConfig :=
  { project_id := "p1", name := "Alpha", root_path := "/a", watch_dirs := ["/a"],
    status := .ACTIVE, created_at := "t00", last_active := "t15",
    decisions :=
      [⟨"d01", "c", "r", "t01", []⟩, ⟨"d02", "c", "r", "t02", []⟩,
       ⟨"d03", "c", "r", "t03", []⟩, ⟨"d04", "c", "r", "t04", []⟩,
       ⟨"d05", "c", "r", "t05", []⟩, ⟨"d06", "c", "r", "t06", []⟩,
       ⟨"d07", "c", "r", "t07", []⟩, ⟨"d08", "c", "r", "t08", []⟩,
       ⟨"d09", "c", "r", "t09", []⟩, ⟨"d10", "c", "r", "t10", []⟩,
       ⟨"d11", "c", "r", "t11", []⟩, ⟨"d12", "c", "r", "t12", []⟩,
       ⟨"d13", "c", "r", "t13", []⟩, ⟨"d14", "c", "r", "t14", []⟩,
       ⟨"d15", "c", "r", "t15", []⟩] }

/-- A store holding `w3proj`. -/
def w3m : ProjectManager :=
  { projects := [("p1", w3proj)], focused_project_id := none, disk := [] }

theorem alookup_dictInsert_self {α : Type} (m : List (String × α)) (k : String) (v : α) :
    alookup (dictInsert m k v) k = some v := by
  induction m with
  | nil => simp [dictInsert, alookup]
  | cons kv rest ih =>
      obtain ⟨k', v'⟩ := kv
      by_cases h : k' = k
      · simp [dictInsert, h, alookup]
      · simp [dictInsert, h, alookup, ih]

theorem alookup_dictInsert_ne {α : Type} {m : List (String × α)} {k k' : String} {v : α}
    (h : k' ≠ k) : alookup (dictInsert m k v) k' = alookup m k' := by
  have hne : ¬ k = k' := fun hk => h hk.symm
  induction m with
  | nil => simp only [dictInsert, alookup, if_neg hne]
  | cons kv rest ih =>
      obtain ⟨k1, v1⟩ := kv
      by_cases hk : k1 = k
      · subst hk
        simp only [dictInsert, if_pos rfl, alookup, if_neg hne]
      · simp [dictInsert, hk, alookup, ih]

theorem alookup_mem {α : Type} {m : List (String × α)} {k : String} {v : α}
    (h : alookup m k = some v) : (k, v) ∈ m := by
  induction m with
  | nil => simp [alookup] at h
  | cons kv rest ih =>
      obtain ⟨k1, v1⟩ := kv
      by_cases hk : k1 = k
      · subst hk
        simp [alookup] at h
        simp [h]
      · simp [alookup, hk] at h
        exact List.mem_cons_of_mem _ (ih h)

theorem alookup_isSome_of_mem {α : Type} {m : List (String × α)} {kp : String × α}
    (h : kp ∈ m) : (alookup m kp.1).isSome = true := by
  induction m with
  | nil => simp at h
  | cons kv rest ih =>
      obtain ⟨k1, v1⟩ := kv
      rcases List.mem_cons.mp h with h1 | h1
      · subst h1
        simp [alookup]
      · by_cases hk : k1 = kp.1
        · simp [alookup, hk]
        · simp [alookup, hk, ih h1]

theorem mem_alookup {α : Type} {m : List (String × α)} {k : String} {v : α}
    (hn : NodupKeys m) (h : (k, v) ∈ m) : alookup m k = some v := by
  induction m with
  | nil => simp at h
  | cons kv rest ih =>
      obtain ⟨k1, v1⟩ := kv
      have hn' : NodupKeys rest := (List.nodup_cons.mp hn).2
      rcases List.mem_cons.mp h with h1 | h1
      · cases h1
        simp [alookup]
      · by_cases hk : k1 = k
        · subst hk
          exfalso
          have : k1 ∈ rest.map Prod.fst := List.mem_map.mpr ⟨(k1, v), h1, rfl⟩
          exact (List.nodup_cons.mp hn).1 this
        · simp [alookup, hk]
          exact ih hn' h1

theorem alookup_eq_none {α : Type} {m : List (String × α)} {k : String}
    (h : alookup m k = none) : ∀ kp ∈ m, kp.1 ≠ k := by
  induction m with
  | nil => simp
  | cons kv rest ih =>
      obtain ⟨k1, v1⟩ := kv
      by_cases hk : k1 = k
      · simp [alookup, hk] at h
      · simp [alookup, hk] at h
        intro kp hkp
        rcases List.mem_cons.mp hkp with h1 | h1
        · subst h1; exact hk
        · exact ih h kp h1

theorem mem_dictInsert {α : Type} {m : List (String × α)} {k : String} {v : α}
    {kp : String × α} (h : kp ∈ dictInsert m k v) : kp = (k, v) ∨ kp ∈ m := by
  induction m with
  | nil => simp [dictInsert] at h; simp [h]
  | cons kv1 rest ih =>
      obtain ⟨k1, v1⟩ := kv1
      by_cases hk : k1 = k
      · simp [dictInsert, hk] at h
        rcases h with h | h
        · left; simp [h]
        · right; exact List.mem_cons_of_mem _ h
      · simp [dictInsert, hk] at h
        rcases h with h | h
        · right; simp [h]
        · rcases ih h with h1 | h1
          · left; exact h1
          · right; exact List.mem_cons_of_mem _ h1

theorem keys_mem_dictInsert {α : Type} {m : List (String × α)} {k k' : String} {v : α}
    (h : k' ∈ (dictInsert m k v).map Prod.fst) : k' = k ∨ k' ∈ m.map Prod.fst := by
  rcases List.mem_map.mp h with ⟨kp, hkp, hfst⟩
  rcases mem_dictInsert hkp with h1 | h1
  · left; rw [← hfst, h1]
  · right; exact hfst ▸ List.mem_map.mpr ⟨kp, h1, rfl⟩

theorem nodupKeys_dictInsert {α : Type} {m : List (String × α)} {k : String} {v : α}
    (hn : NodupKeys m) : NodupKeys (dictInsert m k v) := by
  induction m with
  | nil => simp [dictInsert, NodupKeys]
  | cons kv1 rest ih =>
      obtain ⟨k1, v1⟩ := kv1
      have hn1 := (List.nodup_cons.mp hn).1
      have hn' : NodupKeys rest := (List.nodup_cons.mp hn).2
      by_cases hk : k1 = k
      · subst hk
        unfold NodupKeys at hn ⊢
        simpa [dictInsert] using hn
      · unfold NodupKeys
        simp only [dictInsert, hk, if_false, List.map_cons]
        refine List.nodup_cons.mpr ⟨?_, ih hn'⟩
        intro hmem
        rcases keys_mem_dictInsert hmem with h1 | h1
        · exact hk h1
        · exact hn1 h1

theorem mem_dictInsert_strong {α : Type} {m : List (String × α)} {k : String} {v : α}
    {kp : String × α} (hn : NodupKeys m) (h : kp ∈ dictInsert m k v) :
    kp = (k, v) ∨ (kp ∈ m ∧ kp.1 ≠ k) := by
  induction m with
  | nil => simp [dictInsert] at h; simp [h]
  | cons kv1 rest ih =>
      obtain ⟨k1, v1⟩ := kv1
      have hn1 := (List.nodup_cons.mp hn).1
      have hn' : NodupKeys rest := (List.nodup_cons.mp hn).2
      by_cases hk : k1 = k
      · subst hk
        simp [dictInsert] at h
        rcases h with h | h
        · left; simp [h]
        · right
          refine ⟨List.mem_cons_of_mem _ h, ?_⟩
          intro hfst
          exact hn1 (hfst ▸ List.mem_map.mpr ⟨kp, h, rfl⟩)
      · simp [dictInsert, hk] at h
        rcases h with h | h
        · right
          constructor
          · simp [h]
          · simp [h, hk]
        · rcases ih hn' h with h1 | h1
          · left; exact h1
          · right; exact ⟨List.mem_cons_of_mem _ h1.1, h1.2⟩

theorem alookup_dictInsert_isSome {α : Type} {m : List (String × α)} {k k' : String} {v : α}
    (h : (alookup m k').isSome = true) : (alookup (dictInsert m k v) k').isSome = true := by
  by_cases hk : k' = k
  · subst hk; simp [alookup_dictInsert_self]
  · rwa [alookup_dictInsert_ne hk]

theorem append_json_cancel {a b : String} (h : a ++ ".json" = b ++ ".json") : a = b := by
  have hd : a.data ++ ".json".data = b.data ++ ".json".data := by
    have := congrArg String.data h
    simpa using this
  have : a.data = b.data := List.append_cancel_right hd
  cases a; cases b
  exact congrArg String.mk this

theorem ofString_value (st : ProjectStatus) : ProjectStatus.ofString st.value = some st := by
  cases st <;> rfl

theorem value_ofString {s : String} {st : ProjectStatus}
    (h : ProjectStatus.ofString s = some st) : st.value = s := by
  unfold ProjectStatus.ofString at h
  split_ifs at h with h1 h2 h3 <;> cases h <;> simp [ProjectStatus.value, h1]
  · exact h2.symm
  · exact h3.symm

theorem ofDict_asdict (d : Decision) : Decision.ofDict (Decision.asdict d) = d := rfl

theorem ofDictObj_asdict (o : Objective) : Objective.ofDict (Objective.asdict o) = o := rfl

theorem asdict_ofDict (d : DecisionDict) : Decision.asdict (Decision.ofDict d) = d := rfl

theorem asdictObj_ofDict (o : ObjectiveDict) : Objective.asdict (Objective.ofDict o) = o := rfl

/-- The claim C2: serializing any record with `to_dict` and reading the
result back with `from_dict` reproduces the record field for field,
including every nested decision and objective and the status tag. -/
theorem c2_roundtrip (p : ProjectConfig) :
    ProjectConfig.from_dict p.to_dict = some p := by
  cases p with
  | mk pid nm rp wd st ca la de fe ds os md =>
      simp [ProjectConfig.to_dict, ProjectConfig.from_dict, ofString_value,
        List.map_map, Function.comp_def, ofDict_asdict, ofDictObj_asdict]

/-- Dual direction: any document accepted by `from_dict` is reproduced
exactly by `to_dict` of the parsed record. -/
theorem to_dict_from_dict {d : ProjectDict} {p : ProjectConfig}
    (h : ProjectConfig.from_dict d = some p) : p.to_dict = d := by
  unfold ProjectConfig.from_dict at h
  cases hst : ProjectStatus.ofString d.status with
  | none => rw [hst] at h; cases h
  | some st =>
      rw [hst] at h
      cases h
      cases d with
      | mk pid nm rp wd s ca la de fe ds os md =>
          simp [ProjectConfig.to_dict, List.map_map, Function.comp_def,
            asdict_ofDict, asdictObj_ofDict]
          exact value_ofString hst

/-- The claim C5, amended: `set_focus` on an unknown id reports failure
and changes nothing; on a known id it succeeds, points the focus at it,
re-stamps the record's `last_active` and rewrites its file, touching no
other entry — and `get_focused_project` afterwards returns the record
stored under that id (whose `project_id` equals the argument) whenever
the id is nonempty; for the empty-string id Python's truthiness guard
makes `get_focused_project` return `None` even though the focus was set
(whatever it returns still carries the argument id). -/
theorem c5_set_focus (m : ProjectManager) (pid now : String) :
    (alookup m.projects pid = none → m.set_focus pid now = (false, m)) ∧
    (∀ p, alookup m.projects pid = some p → p.project_id = pid →
      (m.set_focus pid now).1 = true ∧
      (m.set_focus pid now).2.focused_project_id = some pid ∧
      (pid ≠ "" →
        (m.set_focus pid now).2.get_focused_project =
          some { p with last_active := now }) ∧
      (∀ q, (m.set_focus pid now).2.get_focused_project = some q → q.project_id = pid) ∧
      alookup (m.set_focus pid now).2.disk (pid ++ ".json") =
        some (.record ({ p with last_active := now } : ProjectConfig).to_dict) ∧
      (∀ q, q ≠ pid → alookup (m.set_focus pid now).2.projects q = alookup m.projects q)) := by
  constructor
  · intro h
    simp [ProjectManager.set_focus, h]
  · intro p hp hid
    have hstep : m.set_focus pid now =
        (true, ProjectManager.save_project
          { m with focused_project_id := some pid
                   projects := dictInsert m.projects pid { p with last_active := now } }
          { p with last_active := now }) := by
      simp [ProjectManager.set_focus, hp]
    have hpid : ({ p with last_active := now } : ProjectConfig).project_id = pid := hid
    have hfoc : pid ≠ "" → (m.set_focus pid now).2.get_focused_project =
        some { p with last_active := now } := by
      intro hne
      rw [hstep]
      simp [ProjectManager.get_focused_project, ProjectManager.save_project,
        alookup_dictInsert_self, hne]
    refine ⟨by rw [hstep], by rw [hstep]; rfl, hfoc, ?_, ?_, ?_⟩
    · intro q hq
      rw [hstep] at hq
      simp only [ProjectManager.get_focused_project, ProjectManager.save_project] at hq
      by_cases hpe : pid = ""
      · rw [if_pos hpe] at hq
        cases hq
      · rw [if_neg hpe, alookup_dictInsert_self] at hq
        cases hq
        exact hid
    · rw [hstep]
      simp only [ProjectManager.save_project]
      rw [show ({ p with last_active := now } : ProjectConfig).project_id = pid from hid]
      exact alookup_dictInsert_self _ _ _
    · intro q hq
      rw [hstep]
      simp only [ProjectManager.save_project]
      exact alookup_dictInsert_ne hq

/-- Counterexample to the claim C5 as stated: on a store loaded from a
config file whose record carries `project_id = ""`, `set_focus ""`
succeeds, yet `get_focused_project` returns `None` rather than the
record whose `project_id` equals the argument — the source's truthiness
guard treats the empty-string focus as unset. -/
theorem c5_set_focus_counterexample :
    ((c5cexManager.set_focus "" "T1").1 = true) ∧
    (alookup (c5cexManager.set_focus "" "T1").2.projects "" ≠ none) ∧
    ((c5cexManager.set_focus "" "T1").2.get_focused_project = none) := by
  decide

theorem completeFirst_eq_none {objs : List Objective} {oid now : String} :
    completeFirst objs oid now = none ↔ ∀ o ∈ objs, o.id ≠ oid := by
  induction objs with
  | nil => simp [completeFirst]
  | cons o rest ih =>
      by_cases h : o.id = oid
      · simp [completeFirst, h]
      · simp [completeFirst, h, ih]

theorem completeFirst_append {oid now : String} (pre : List Objective) (o : Objective)
    (post : List Objective) (hpre : ∀ o' ∈ pre, o'.id ≠ oid) (ho : o.id = oid) :
    completeFirst (pre ++ o :: post) oid now =
      some (pre ++ { o with status := "completed", completed_at := some now } :: post) := by
  induction pre with
  | nil => simp [completeFirst, ho]
  | cons q rest ih =>
      have hq : q.id ≠ oid := hpre q (List.mem_cons_self _ _)
      have hrest : ∀ o' ∈ rest, o'.id ≠ oid := fun o' h' => hpre o' (List.mem_cons_of_mem _ h')
      simp [completeFirst, hq, ih hrest]

theorem complete_objective_eq (m : ProjectManager) (pid oid n1 n2 : String)
    (p : ProjectConfig) (pre : List Objective) (o : Objective) (post : List Objective)
    (hp : alookup m.projects pid = some p)
    (hobjs : p.objectives = pre ++ o :: post)
    (hpre : ∀ o' ∈ pre, o'.id ≠ oid) (ho : o.id = oid) :
    m.complete_objective pid oid n1 n2 =
      (true, ProjectManager.save_project
        { m with
            projects :=
              dictInsert m.projects pid
                { p with
                    objectives :=
                      pre ++
                        { o with status := "completed", completed_at := some n1 } :: post
                    last_active := n2 } }
        { p with
            objectives :=
              pre ++ { o with status := "completed", completed_at := some n1 } :: post
            last_active := n2 }) := by
  have hcf : completeFirst p.objectives oid n1 =
      some (pre ++ { o with status := "completed", completed_at := some n1 } :: post) := by
    rw [hobjs]
    exact completeFirst_append pre o post hpre ho
  simp only [ProjectManager.complete_objective, hp, hcf]

/-- The claim C4, amended: `complete_objective` fails and changes nothing
when the project or objective is unknown; on a match it reports success,
sets the first matching objective's status to `completed` with a non-null
`completed_at`, re-stamps the project and rewrites its file, touching
nothing else; a repeated call on the same ids still reports success, but
re-stamps `completed_at` and `last_active` with the then-current
timestamps instead of leaving the state unchanged. -/
theorem c4_complete_objective_amended (m : ProjectManager) (pid oid n1 n2 : String) :
    (alookup m.projects pid = none → m.complete_objective pid oid n1 n2 = (false, m)) ∧
    (∀ p, alookup m.projects pid = some p → (∀ o ∈ p.objectives, o.id ≠ oid) →
      m.complete_objective pid oid n1 n2 = (false, m)) ∧
    (∀ p pre o post, alookup m.projects pid = some p →
      p.objectives = pre ++ o :: post → (∀ o' ∈ pre, o'.id ≠ oid) → o.id = oid →
      (m.complete_objective pid oid n1 n2).1 = true ∧
      (∃ p', alookup (m.complete_objective pid oid n1 n2).2.projects pid = some p' ∧
        p'.objectives =
          pre ++ { o with status := "completed", completed_at := some n1 } :: post ∧
        p'.last_active = n2 ∧ p'.decisions = p.decisions ∧
        p'.project_id = p.project_id ∧ p'.name = p.name ∧ p'.root_path = p.root_path ∧
        p'.watch_dirs = p.watch_dirs ∧ p'.status = p.status ∧
        p'.created_at = p.created_at ∧ p'.description = p.description ∧
        p'.file_extensions = p.file_extensions ∧ p'.metadata = p.metadata ∧
        alookup (m.complete_objective pid oid n1 n2).2.disk (p.project_id ++ ".json") =
          some (.record p'.to_dict)) ∧
      (∀ q, q ≠ pid →
        alookup (m.complete_objective pid oid n1 n2).2.projects q = alookup m.projects q) ∧
      (m.complete_objective pid oid n1 n2).2.focused_project_id = m.focused_project_id ∧
      (∀ n3 n4,
        ((m.complete_objective pid oid n1 n2).2.complete_objective pid oid n3 n4).1 =
          true)) := by
  refine ⟨?_, ?_, ?_⟩
  · intro h
    simp [ProjectManager.complete_objective, h]
  · intro p hp hnone
    simp [ProjectManager.complete_objective, hp, completeFirst_eq_none.mpr hnone]
  · intro p pre o post hp hobjs hpre ho
    have heq := complete_objective_eq m pid oid n1 n2 p pre o post hp hobjs hpre ho
    set p' : ProjectConfig :=
      { p with
          objectives := pre ++ { o with status := "completed", completed_at := some n1 } :: post
          last_active := n2 } with hp'
    refine ⟨by rw [heq], ⟨p', ?_, rfl, rfl, rfl, rfl, rfl, rfl, rfl, rfl, rfl, rfl, rfl, rfl, ?_⟩,
      ?_, ?_, ?_⟩
    · rw [heq]
      simp only [ProjectManager.save_project]
      exact alookup_dictInsert_self _ _ _
    · rw [heq]
      simp only [ProjectManager.save_project]
      have hpp : p'.project_id = p.project_id := rfl
      rw [← hpp]
      exact alookup_dictInsert_self _ _ _
    · intro q hq
      rw [heq]
      simp only [ProjectManager.save_project]
      exact alookup_dictInsert_ne hq
    · rw [heq]
      rfl
    · intro n3 n4
      have hp2 : alookup (m.complete_objective pid oid n1 n2).2.projects pid = some p' := by
        rw [heq]
        simp only [ProjectManager.save_project]
        exact alookup_dictInsert_self _ _ _
      have heq2 := complete_objective_eq (m.complete_objective pid oid n1 n2).2 pid oid n3 n4
        p' pre { o with status := "completed", completed_at := some n1 } post hp2 rfl hpre ho
      rw [heq2]

/-- Counterexample to the claim C4 as stated: after a first successful
`complete_objective`, calling it again with the same project and objective
ids (the clock having moved on) still reports success but does not leave
the state unchanged — `completed_at` and `last_active` are re-stamped. -/
theorem c4_complete_objective_counterexample :
    (cexManager1.complete_objective "proj_aaaaaaaaaaaa" "obj_11111111"
      "2025-01-03T00:00:00" "2025-01-03T00:00:01").1 = true ∧
    (cexManager1.complete_objective "proj_aaaaaaaaaaaa" "obj_11111111"
      "2025-01-03T00:00:00" "2025-01-03T00:00:01").2 ≠ cexManager1 := by
  decide

/-- Witness instantiating `c4_complete_objective_amended` on `cexManager`:
the single pending objective completes with a non-null stamp. -/
theorem c4_complete_objective_amended_witness :
    (alookup cexManager.projects "proj_aaaaaaaaaaaa" =
      some (cexManager.projects.head (by decide)).2) ∧
    ((cexManager.complete_objective "proj_aaaaaaaaaaaa" "obj_11111111"
      "2025-01-02T00:00:00" "2025-01-02T00:00:01").1 = true ∧
     (∃ p', alookup (cexManager.complete_objective "proj_aaaaaaaaaaaa" "obj_11111111"
          "2025-01-02T00:00:00" "2025-01-02T00:00:01").2.projects "proj_aaaaaaaaaaaa" =
            some p' ∧
        p'.objectives =
          [] ++ { (cexManager.projects.head (by decide)).2.objectives.head (by decide) with
                    status := "completed"
                    completed_at := some "2025-01-02T00:00:00" } :: [] ∧
        p'.last_active = "2025-01-02T00:00:01" ∧
        p'.decisions = (cexManager.projects.head (by decide)).2.decisions ∧
        p'.project_id = (cexManager.projects.head (by decide)).2.project_id ∧
        p'.name = (cexManager.projects.head (by decide)).2.name ∧
        p'.root_path = (cexManager.projects.head (by decide)).2.root_path ∧
        p'.watch_dirs = (cexManager.projects.head (by decide)).2.watch_dirs ∧
        p'.status = (cexManager.projects.head (by decide)).2.status ∧
        p'.created_at = (cexManager.projects.head (by decide)).2.created_at ∧
        p'.description = (cexManager.projects.head (by decide)).2.description ∧
        p'.file_extensions = (cexManager.projects.head (by decide)).2.file_extensions ∧
        p'.metadata = (cexManager.projects.head (by decide)).2.metadata ∧
        alookup (cexManager.complete_objective "proj_aaaaaaaaaaaa" "obj_11111111"
            "2025-01-02T00:00:00" "2025-01-02T00:00:01").2.disk
          ((cexManager.projects.head (by decide)).2.project_id ++ ".json") =
          some (.record p'.to_dict)) ∧
     (∀ q, q ≠ "proj_aaaaaaaaaaaa" →
        alookup (cexManager.complete_objective "proj_aaaaaaaaaaaa" "obj_11111111"
          "2025-01-02T00:00:00" "2025-01-02T00:00:01").2.projects q =
          alookup cexManager.projects q) ∧
     (cexManager.complete_objective "proj_aaaaaaaaaaaa" "obj_11111111"
        "2025-01-02T00:00:00" "2025-01-02T00:00:01").2.focused_project_id =
        cexManager.focused_project_id ∧
     (∀ n3 n4,
        ((cexManager.complete_objective "proj_aaaaaaaaaaaa" "obj_11111111"
            "2025-01-02T00:00:00" "2025-01-02T00:00:01").2.complete_objective
          "proj_aaaaaaaaaaaa" "obj_11111111" n3 n4).1 = true)) :=
  ⟨by decide,
   (c4_complete_objective_amended cexManager "proj_aaaaaaaaaaaa" "obj_11111111"
      "2025-01-02T00:00:00" "2025-01-02T00:00:01").2.2
    (cexManager.projects.head (by decide)).2 []
    ((cexManager.projects.head (by decide)).2.objectives.head (by decide)) []
    (by decide) (by decide) (by decide) (by decide)⟩

/-- The claim C6: every `create_project` call returns a record whose id is
`proj_` followed by the first 12 characters of the supplied uuid hex (12
lowercase hex characters whenever the uuid source supplies at least 12),
whose status is `active`, whose `root_path` and `watch_dirs` are the
absolute-normalized forms of the inputs (`watch_dirs` defaulting to the
root path), inserted in the map and written to disk before returning; and
when the store held no records before the call the new record becomes the
focused project. -/
theorem c6_create_project (m : ProjectManager) (name root description : String)
    (wd : Option (List String)) (abspath : String → String) (uuid n1 n2 : String) :
    ∀ p m', m.create_project name root wd description abspath uuid n1 n2 = (p, m') →
      p.project_id = "proj_" ++ uuid.take 12 ∧
      (12 ≤ uuid.toList.length → (∀ c ∈ uuid.toList, isHexChar c = true) →
        ∃ t : String, p.project_id = "proj_" ++ t ∧ t.toList.length = 12 ∧
          ∀ c ∈ t.toList, isHexChar c = true) ∧
      p.status = ProjectStatus.ACTIVE ∧
      p.root_path = abspath root ∧
      p.created_at = n1 ∧ p.last_active = n2 ∧
      (wd = none → p.watch_dirs = [abspath root]) ∧
      (∀ ws, wd = some ws → p.watch_dirs = ws.map abspath) ∧
      alookup m'.projects p.project_id = some p ∧
      alookup m'.disk (p.project_id ++ ".json") = some (.record p.to_dict) ∧
      (m.projects = [] → m'.focused_project_id = some p.project_id) := by
  intro p m' h
  simp only [ProjectManager.create_project, ProjectManager.save_project] at h
  obtain ⟨rfl, rfl⟩ := Prod.mk.injEq .. |>.mp h
  refine ⟨rfl, ?_, rfl, rfl, rfl, rfl, ?_, ?_, ?_, ?_, ?_⟩
  · intro hlen hhex
    refine ⟨uuid.take 12, rfl, ?_, ?_⟩
    · have hdata : (uuid.take 12).toList = uuid.toList.take 12 := String.data_take uuid 12
      rw [hdata, List.length_take]
      exact Nat.min_eq_left hlen
    · intro c hc
      have hdata : (uuid.take 12).toList = uuid.toList.take 12 := String.data_take uuid 12
      rw [hdata] at hc
      exact hhex c (List.take_subset 12 uuid.toList hc)
  · intro hwd
    subst hwd
    rfl
  · intro ws hwd
    subst hwd
    rfl
  · split
    · exact alookup_dictInsert_self _ _ _
    · exact alookup_dictInsert_self _ _ _
  · split
    · exact alookup_dictInsert_self _ _ _
    · exact alookup_dictInsert_self _ _ _
  · intro hemp
    rw [hemp]
    simp [dictInsert]

theorem decisionGE_trans : ∀ a b c : Decision, decisionGE a b = true →
    decisionGE b c = true → decisionGE a c = true := by
  intro a b c h1 h2
  simp only [decisionGE, decide_eq_true_eq] at h1 h2 ⊢
  exact le_trans h2 h1

theorem decisionGE_total : ∀ a b : Decision, (decisionGE a b || decisionGE b a) = true := by
  intro a b
  simp only [decisionGE, Bool.or_eq_true, decide_eq_true_eq]
  exact le_total b.timestamp a.timestamp

/-- The claim C3: `export_context` returns the empty document on an
unknown id; on a known id it returns (without touching any state — the
embedding is a pure projection) the summary fields, the `min 10 n`
decisions of greatest timestamp in descending timestamp order, exactly
the non-completed objectives, and the four counts. -/
theorem c3_export_context (m : ProjectManager) (pid : String) :
    (alookup m.projects pid = none → m.export_context pid = none) ∧
    (∀ p, alookup m.projects pid = some p →
      ∃ ctx kept dropped,
        m.export_context pid = some ctx ∧
        ctx.project = ⟨p.project_id, p.name, p.description, p.root_path,
          p.status.value, p.last_active⟩ ∧
        p.decisions.Perm (kept ++ dropped) ∧
        ctx.recent_decisions = kept.map Decision.toOut ∧
        kept.length = min 10 p.decisions.length ∧
        List.Pairwise (fun a b : Decision => b.timestamp ≤ a.timestamp) kept ∧
        (∀ a ∈ kept, ∀ b ∈ dropped, b.timestamp ≤ a.timestamp) ∧
        ctx.pending_objectives =
          (p.objectives.filter
            (fun o => decide (o.status ≠ "completed"))).map Objective.toOut ∧
        ctx.statistics.total_decisions = p.decisions.length ∧
        ctx.statistics.total_objectives = p.objectives.length ∧
        ctx.statistics.completed_objectives =
          (p.objectives.filter (fun o => decide (o.status = "completed"))).length ∧
        ctx.statistics.watch_directories = p.watch_dirs.length) := by
  constructor
  · intro h
    simp [ProjectManager.export_context, h]
  · intro p hp
    have hsorted := List.sorted_mergeSort decisionGE_trans decisionGE_total p.decisions
    have hexp : m.export_context pid =
        some { project := ⟨p.project_id, p.name, p.description, p.root_path,
                 p.status.value, p.last_active⟩
               recent_decisions :=
                 ((p.decisions.mergeSort decisionGE).take 10).map Decision.toOut
               pending_objectives :=
                 (p.objectives.filter
                   (fun o => decide (o.status ≠ "completed"))).map Objective.toOut
               statistics := ⟨p.decisions.length, p.objectives.length,
                 (p.objectives.filter (fun o => decide (o.status = "completed"))).length,
                 p.watch_dirs.length⟩ } := by
      simp only [ProjectManager.export_context, hp]
    refine ⟨_, (p.decisions.mergeSort decisionGE).take 10,
      (p.decisions.mergeSort decisionGE).drop 10,
      hexp, rfl, ?_, rfl, ?_, ?_, ?_, rfl, rfl, rfl, rfl, rfl⟩
    · rw [List.take_append_drop]
      exact (List.mergeSort_perm p.decisions decisionGE).symm
    · rw [List.length_take, List.length_mergeSort]
    · exact (List.Pairwise.sublist (List.take_sublist 10 _) hsorted).imp
        (fun h => by simpa [decisionGE] using h)
    · intro a ha b hb
      rw [← List.take_append_drop 10 (p.decisions.mergeSort decisionGE)] at hsorted
      have := (List.pairwise_append.mp hsorted).2.2 a ha b hb
      simpa [decisionGE] using this

theorem storeInv_writeback {m : ProjectManager} {pid : String} {p : ProjectConfig}
    (f : Option String) (h : StoreInv m) (hid : p.project_id = pid) :
    StoreInv { projects := dictInsert m.projects pid p
               focused_project_id := f
               disk := dictInsert m.disk (p.project_id ++ ".json") (.record p.to_dict) } := by
  obtain ⟨hn, hk, hd⟩ := h
  refine ⟨nodupKeys_dictInsert hn, ?_, ?_⟩
  · intro kp hkp
    rcases mem_dictInsert hkp with h1 | h1
    · rw [h1]
      exact hid
    · exact hk kp h1
  · intro kp hkp
    rcases mem_dictInsert_strong hn hkp with h1 | ⟨h1, h2⟩
    · rw [h1]
      simp only
      rw [← hid]
      exact alookup_dictInsert_self _ _ _
    · have hne : kp.1 ++ ".json" ≠ p.project_id ++ ".json" := by
        rw [hid]
        intro he
        exact h2 (append_json_cancel he)
      simp only
      rw [alookup_dictInsert_ne hne]
      exact hd kp h1

theorem storeInv_step (m : ProjectManager) (op : Op) (h : StoreInv m) :
    StoreInv (step m op) := by
  have hk := h.2.1
  cases op with
  | create n r w d a u t1 t2 =>
      simp only [step, ProjectManager.create_project, ProjectManager.save_project]
      split
      · exact storeInv_writeback _ h rfl
      · exact storeInv_writeback _ h rfl
  | setFocus pid now =>
      cases hq : alookup m.projects pid with
      | none => simpa [step, ProjectManager.set_focus, hq] using h
      | some q =>
          simp only [step, ProjectManager.set_focus, hq, ProjectManager.save_project]
          exact storeInv_writeback _ h (hk _ (alookup_mem hq))
  | updateStatus pid st now =>
      cases hq : alookup m.projects pid with
      | none => simpa [step, ProjectManager.update_status, hq] using h
      | some q =>
          simp only [step, ProjectManager.update_status, hq, ProjectManager.save_project]
          exact storeInv_writeback _ h (hk _ (alookup_mem hq))
  | pause pid now =>
      cases hq : alookup m.projects pid with
      | none =>
          simpa [step, ProjectManager.pause_project, ProjectManager.update_status, hq] using h
      | some q =>
          simp only [step, ProjectManager.pause_project, ProjectManager.update_status, hq,
            ProjectManager.save_project]
          exact storeInv_writeback _ h (hk _ (alookup_mem hq))
  | resume pid now =>
      cases hq : alookup m.projects pid with
      | none =>
          simpa [step, ProjectManager.resume_project, ProjectManager.update_status, hq] using h
      | some q =>
          simp only [step, ProjectManager.resume_project, ProjectManager.update_status, hq,
            ProjectManager.save_project]
          exact storeInv_writeback _ h (hk _ (alookup_mem hq))
  | archive pid now =>
      cases hq : alookup m.projects pid with
      | none =>
          simpa [step, ProjectManager.archive_project, ProjectManager.update_status, hq] using h
      | some q =>
          simp only [step, ProjectManager.archive_project, ProjectManager.update_status, hq,
            ProjectManager.save_project]
          exact storeInv_writeback _ h (hk _ (alookup_mem hq))
  | addDecision pid dec rs tags u t1 t2 =>
      cases hq : alookup m.projects pid with
      | none => simpa [step, ProjectManager.add_decision, hq] using h
      | some q =>
          simp only [step, ProjectManager.add_decision, hq, ProjectManager.save_project]
          exact storeInv_writeback _ h (hk _ (alookup_mem hq))
  | addObjective pid t d pr u t1 t2 =>
      cases hq : alookup m.projects pid with
      | none => simpa [step, ProjectManager.add_objective, hq] using h
      | some q =>
          simp only [step, ProjectManager.add_objective, hq, ProjectManager.save_project]
          exact storeInv_writeback _ h (hk _ (alookup_mem hq))
  | completeObjective pid oid t1 t2 =>
      cases hq : alookup m.projects pid with
      | none => simpa [step, ProjectManager.complete_objective, hq] using h
      | some q =>
          cases hcf : completeFirst q.objectives oid t1 with
          | none => simpa [step, ProjectManager.complete_objective, hq, hcf] using h
          | some objs =>
              simp only [step, ProjectManager.complete_objective, hq, hcf,
                ProjectManager.save_project]
              exact storeInv_writeback _ h (hk _ (alookup_mem hq))

theorem storeInv_run (m : ProjectManager) (ops : List Op) (h : StoreInv m) :
    StoreInv (run m ops) := by
  induction ops generalizing m with
  | nil => exact h
  | cons op ops ih => exact ih _ (storeInv_step m op h)

theorem dictInsert_of_none {α : Type} {m : List (String × α)} {k : String} {v : α}
    (h : alookup m k = none) : dictInsert m k v = m ++ [(k, v)] := by
  induction m with
  | nil => rfl
  | cons kv rest ih =>
      obtain ⟨k1, v1⟩ := kv
      by_cases hk : k1 = k
      · simp [alookup, hk] at h
      · simp [alookup, hk] at h
        simp [dictInsert, hk, ih h]

theorem alookup_append {α : Type} (l1 l2 : List (String × α)) (k : String) :
    alookup (l1 ++ l2) k =
      match alookup l1 k with
      | some v => some v
      | none => alookup l2 k := by
  induction l1 with
  | nil => simp [alookup]
  | cons kv rest ih =>
      obtain ⟨k1, v1⟩ := kv
      by_cases hk : k1 = k
      · simp [alookup, hk]
      · simp [alookup, hk, ih]

theorem loadFold_focus_disk (fs : List (String × FileContent)) (acc : ProjectManager) :
    (fs.foldl loadStep acc).focused_project_id = acc.focused_project_id ∧
    (fs.foldl loadStep acc).disk = acc.disk := by
  induction fs generalizing acc with
  | nil => exact ⟨rfl, rfl⟩
  | cons f fs ih =>
      have hstep : (loadStep acc f).focused_project_id = acc.focused_project_id ∧
          (loadStep acc f).disk = acc.disk := by
        unfold loadStep
        cases parseFile f.2 <;> simp
      simp only [List.foldl_cons]
      exact ⟨((ih (loadStep acc f)).1).trans hstep.1, ((ih (loadStep acc f)).2).trans hstep.2⟩

theorem loadFold_keys (fs : List (String × FileContent)) (acc : ProjectManager)
    (hn : NodupKeys acc.projects) (hk : KeysOK acc) :
    NodupKeys (fs.foldl loadStep acc).projects ∧ KeysOK (fs.foldl loadStep acc) := by
  induction fs generalizing acc with
  | nil => exact ⟨hn, hk⟩
  | cons f fs ih =>
      simp only [List.foldl_cons]
      have hn' : NodupKeys (loadStep acc f).projects := by
        unfold loadStep
        cases parseFile f.2 with
        | none => exact hn
        | some p => exact nodupKeys_dictInsert hn
      have hk' : KeysOK (loadStep acc f) := by
        unfold loadStep
        cases parseFile f.2 with
        | none => exact hk
        | some p =>
            intro kp hkp
            rcases mem_dictInsert hkp with h1 | h1
            · rw [h1]
            · exact hk kp h1
      exact ih (loadStep acc f) hn' hk'

theorem loadFold_lookup_isSome (fs : List (String × FileContent)) (acc : ProjectManager)
    (k : String) (h : (alookup acc.projects k).isSome = true) :
    (alookup (fs.foldl loadStep acc).projects k).isSome = true := by
  induction fs generalizing acc with
  | nil => exact h
  | cons f fs ih =>
      simp only [List.foldl_cons]
      apply ih
      unfold loadStep
      cases parseFile f.2 with
      | none => exact h
      | some p => exact alookup_dictInsert_isSome h

theorem loadFold_entries (fs : List (String × FileContent)) (acc : ProjectManager)
    (hdis : ∀ f ∈ fs, ∀ p, parseFile f.2 = some p → alookup acc.projects p.project_id = none)
    (hnodup : (fs.filterMap (fun f => (parseFile f.2).map (fun p => p.project_id))).Nodup) :
    (fs.foldl loadStep acc).projects =
      acc.projects ++ fs.filterMap (fun f => (parseFile f.2).map (fun p => (p.project_id, p))) := by
  induction fs generalizing acc with
  | nil => simp
  | cons f fs ih =>
      simp only [List.foldl_cons]
      cases hpf : parseFile f.2 with
      | none =>
          have hstep : loadStep acc f = acc := by unfold loadStep; rw [hpf]
          rw [hstep]
          rw [ih acc (fun f' hf' => hdis f' (List.mem_cons_of_mem _ hf'))
            (by simpa [hpf] using hnodup)]
          simp [hpf]
      | some p =>
          have hnone : alookup acc.projects p.project_id = none :=
            hdis f (List.mem_cons_self _ _) p hpf
          have hstep1 : loadStep acc f =
              { acc with projects := dictInsert acc.projects p.project_id p } := by
            unfold loadStep
            rw [hpf]
          have hstep : loadStep acc f =
              { acc with projects := acc.projects ++ [(p.project_id, p)] } := by
            rw [hstep1, dictInsert_of_none hnone]
          rw [hstep]
          have hnodup2 := hnodup
          rw [show (List.filterMap (fun f => Option.map (fun p => p.project_id) (parseFile f.2))
                (f :: fs)) =
              p.project_id ::
                List.filterMap (fun f => Option.map (fun p => p.project_id) (parseFile f.2)) fs
              from by simp [hpf], List.nodup_cons] at hnodup2
          obtain ⟨hhead, hnodup'⟩ := hnodup2
          have hdis' : ∀ f' ∈ fs, ∀ p', parseFile f'.2 = some p' →
              alookup (acc.projects ++ [(p.project_id, p)]) p'.project_id = none := by
            intro f' hf' p' hpf'
            have h1 : alookup acc.projects p'.project_id = none :=
              hdis f' (List.mem_cons_of_mem _ hf') p' hpf'
            have hne : ¬ p.project_id = p'.project_id := by
              intro he
              exact hhead (he ▸ List.mem_filterMap.mpr ⟨f', hf', by simp [hpf']⟩)
            rw [alookup_append, h1]
            show alookup [(p.project_id, p)] p'.project_id = none
            simp only [alookup]
            rw [if_neg hne]
          rw [ih _ hdis' hnodup']
          simp [hpf, List.append_assoc]

theorem selectFocus_projects_disk (m1 : ProjectManager) :
    (selectFocus m1).projects = m1.projects ∧ (selectFocus m1).disk = m1.disk := by
  unfold selectFocus
  cases hfoc : m1.focused_project_id with
  | some x => exact ⟨rfl, rfl⟩
  | none =>
      cases hfil :
          List.filter (fun kp => decide (kp.2.status = ProjectStatus.ACTIVE)) m1.projects with
      | nil =>
          simp only [hfil]
          constructor <;> (split <;> rfl)
      | cons a rest =>
          simp only [hfil]
          constructor <;> (split <;> rfl)

theorem selectFocus_focusOK (m1 : ProjectManager) (hk : KeysOK m1) (hf : FocusOK m1) :
    FocusOK (selectFocus m1) := by
  unfold selectFocus
  cases hfoc : m1.focused_project_id with
  | some x => exact hf
  | none =>
      cases hfil :
          List.filter (fun kp => decide (kp.2.status = ProjectStatus.ACTIVE)) m1.projects with
      | nil =>
          simp only [hfil]
          split
          · exact hf
          · exact hf
      | cons a rest =>
          simp only [hfil]
          split
          · exact hf
          · intro pid hp
            have hp' : some a.2.project_id = some pid := hp
            cases hp'
            have hmem : a ∈ m1.projects := by
              have hh : a ∈ a :: rest := List.mem_cons_self _ _
              rw [← hfil] at hh
              exact List.mem_of_mem_filter hh
            show (alookup m1.projects a.2.project_id).isSome = true
            rw [hk a hmem]
            exact alookup_isSome_of_mem hmem

theorem load_all_projects_projects (m : ProjectManager) :
    (ProjectManager.load_all_projects m).projects =
      ((m.disk.filter (fun f => endsWithJson f.1)).foldl loadStep m).projects := by
  unfold ProjectManager.load_all_projects
  exact (selectFocus_projects_disk _).1

theorem initManager_projects (files : List (String × FileContent))
    (hnodup : (parsedIds files).Nodup) :
    (initManager files).projects = parsedEntries files := by
  have hids : parsedIds files =
      (files.filter (fun f => endsWithJson f.1)).filterMap
        (fun f => (parseFile f.2).map (fun p => p.project_id)) := by
    unfold parsedIds parsedEntries
    rw [List.map_filterMap]
    simp [Option.map_map, Function.comp_def]
  unfold initManager
  rw [load_all_projects_projects]
  have := loadFold_entries (files.filter (fun f => endsWithJson f.1))
    { projects := [], focused_project_id := none, disk := files }
    (by intro f hf p hp; rfl) (by rw [← hids]; exact hnodup)
  simpa [parsedEntries] using this

theorem initManager_keys (files : List (String × FileContent)) :
    NodupKeys (initManager files).projects ∧ KeysOK (initManager files) := by
  have hfold := loadFold_keys (files.filter (fun f => endsWithJson f.1))
    { projects := [], focused_project_id := none, disk := files }
    (by simp [NodupKeys]) (by intro kp hkp; simp at hkp)
  have hproj : (initManager files).projects =
      ((files.filter (fun f => endsWithJson f.1)).foldl loadStep
        { projects := [], focused_project_id := none, disk := files }).projects :=
    load_all_projects_projects _
  constructor
  · rw [NodupKeys, hproj]
    exact hfold.1
  · intro kp hkp
    rw [hproj] at hkp
    exact hfold.2 kp hkp

theorem initManager_focusOK (files : List (String × FileContent)) :
    FocusOK (initManager files) := by
  have hfold := loadFold_keys (files.filter (fun f => endsWithJson f.1))
    { projects := [], focused_project_id := none, disk := files }
    (by simp [NodupKeys]) (by intro kp hkp; simp at hkp)
  have hfoc := (loadFold_focus_disk (files.filter (fun f => endsWithJson f.1))
    { projects := [], focused_project_id := none, disk := files }).1
  unfold initManager ProjectManager.load_all_projects
  apply selectFocus_focusOK _ hfold.2
  intro pid hp
  rw [hfoc] at hp
  cases hp

theorem loadFold_diskSync (files : List (String × FileContent)) (hOK : FilesOK files)
    (fs : List (String × FileContent)) :
    (∀ f ∈ fs, f ∈ files) → ∀ acc : ProjectManager, acc.disk = files → DiskSync acc →
      DiskSync (fs.foldl loadStep acc) := by
  induction fs with
  | nil => intro _ acc _ hd; exact hd
  | cons f fs ih =>
      intro hmem acc hdisk hd
      simp only [List.foldl_cons]
      apply ih (fun f' h' => hmem f' (List.mem_cons_of_mem _ h'))
      · show (loadStep acc f).disk = files
        unfold loadStep
        cases parseFile f.2 <;> simpa using hdisk
      · unfold loadStep
        cases hpf : parseFile f.2 with
        | none => exact hd
        | some p =>
            intro kp hkp
            rcases mem_dictInsert hkp with h1 | h1
            · rw [h1]
              show alookup acc.disk (p.project_id ++ ".json") = some (.record p.to_dict)
              have hf : f ∈ files := hmem f (List.mem_cons_self _ _)
              have hname : f.1 = p.project_id ++ ".json" := by
                have hnm := hOK.2 f hf
                unfold fileNameOK at hnm
                rw [hpf] at hnm
                exact eq_of_beq hnm
              have hlook : alookup files f.1 = some f.2 := by
                apply mem_alookup hOK.1
                simpa using hf
              rw [hdisk, ← hname, hlook]
              cases hc : f.2 with
              | invalid =>
                  rw [hc] at hpf
                  exact absurd hpf (by simp [parseFile])
              | record d =>
                  rw [hc] at hpf
                  have htd : p.to_dict = d := to_dict_from_dict hpf
                  rw [htd]
            · exact hd kp h1

theorem initManager_storeInv (files : List (String × FileContent)) (hOK : FilesOK files) :
    StoreInv (initManager files) := by
  obtain ⟨hn, hk⟩ := initManager_keys files
  refine ⟨hn, hk, ?_⟩
  have hds : DiskSync ((files.filter (fun f => endsWithJson f.1)).foldl loadStep
      { projects := [], focused_project_id := none, disk := files }) :=
    loadFold_diskSync files hOK _ (fun f hf => List.mem_of_mem_filter hf) _ rfl
      (by intro kp hkp; simp at hkp)
  have hdisk2 : ((files.filter (fun f => endsWithJson f.1)).foldl loadStep
      { projects := [], focused_project_id := none, disk := files }).disk = files :=
    (loadFold_focus_disk _ _).2
  have h1 : (initManager files).projects =
      ((files.filter (fun f => endsWithJson f.1)).foldl loadStep
        { projects := [], focused_project_id := none, disk := files }).projects :=
    (selectFocus_projects_disk _).1
  have h2 : (initManager files).disk =
      ((files.filter (fun f => endsWithJson f.1)).foldl loadStep
        { projects := [], focused_project_id := none, disk := files }).disk :=
    (selectFocus_projects_disk _).2
  intro kp hkp
  rw [h1] at hkp
  rw [h2]
  exact hds kp hkp

theorem step_shape (m : ProjectManager) (op : Op) (hk : KeysOK m) :
    step m op = m ∨
    ∃ pid p, p.project_id = pid ∧
      (step m op).projects = dictInsert m.projects pid p ∧
      (step m op).disk = dictInsert m.disk (p.project_id ++ ".json") (.record p.to_dict) ∧
      ((step m op).focused_project_id = m.focused_project_id ∨
        (step m op).focused_project_id = some pid) := by
  cases op with
  | create n r w d a u t1 t2 =>
      right
      refine ⟨"proj_" ++ u.take 12,
        { project_id := "proj_" ++ u.take 12, name := n, root_path := a r,
          watch_dirs := (match w with | none => [r] | some ws => ws).map a,
          status := .ACTIVE, created_at := t1, last_active := t2,
          description := d }, rfl, ?_⟩
      simp only [step, ProjectManager.create_project, ProjectManager.save_project]
      split
      · exact ⟨rfl, rfl, Or.inr rfl⟩
      · exact ⟨rfl, rfl, Or.inl rfl⟩
  | setFocus pid now =>
      cases hq : alookup m.projects pid with
      | none => left; simp [step, ProjectManager.set_focus, hq]
      | some q =>
          right
          refine ⟨pid, { q with last_active := now }, hk _ (alookup_mem hq), ?_⟩
          simp only [step, ProjectManager.set_focus, hq, ProjectManager.save_project]
          exact ⟨trivial, trivial, Or.inr trivial⟩
  | updateStatus pid st now =>
      cases hq : alookup m.projects pid with
      | none => left; simp [step, ProjectManager.update_status, hq]
      | some q =>
          right
          refine ⟨pid, { q with status := st, last_active := now },
            hk _ (alookup_mem hq), ?_⟩
          simp only [step, ProjectManager.update_status, hq, ProjectManager.save_project]
          exact ⟨trivial, trivial, Or.inl trivial⟩
  | pause pid now =>
      cases hq : alookup m.projects pid with
      | none => left; simp [step, ProjectManager.pause_project, ProjectManager.update_status, hq]
      | some q =>
          right
          refine ⟨pid, { q with status := .PAUSED, last_active := now },
            hk _ (alookup_mem hq), ?_⟩
          simp only [step, ProjectManager.pause_project, ProjectManager.update_status, hq,
            ProjectManager.save_project]
          exact ⟨trivial, trivial, Or.inl trivial⟩
  | resume pid now =>
      cases hq : alookup m.projects pid with
      | none => left; simp [step, ProjectManager.resume_project, ProjectManager.update_status, hq]
      | some q =>
          right
          refine ⟨pid, { q with status := .ACTIVE, last_active := now },
            hk _ (alookup_mem hq), ?_⟩
          simp only [step, ProjectManager.resume_project, ProjectManager.update_status, hq,
            ProjectManager.save_project]
          exact ⟨trivial, trivial, Or.inl trivial⟩
  | archive pid now =>
      cases hq : alookup m.projects pid with
      | none => left; simp [step, ProjectManager.archive_project, ProjectManager.update_status, hq]
      | some q =>
          right
          refine ⟨pid, { q with status := .ARCHIVED, last_active := now },
            hk _ (alookup_mem hq), ?_⟩
          simp only [step, ProjectManager.archive_project, ProjectManager.update_status, hq,
            ProjectManager.save_project]
          exact ⟨trivial, trivial, Or.inl trivial⟩
  | addDecision pid dec rs tags u t1 t2 =>
      cases hq : alookup m.projects pid with
      | none => left; simp [step, ProjectManager.add_decision, hq]
      | some q =>
          right
          refine ⟨pid, { q with
              decisions := q.decisions ++
                [{ id := "dec_" ++ u.take 8, decision := dec, reasoning := rs,
                   timestamp := t1, tags := tags.getD [] }]
              last_active := t2 }, hk _ (alookup_mem hq), ?_⟩
          simp only [step, ProjectManager.add_decision, hq, ProjectManager.save_project]
          exact ⟨trivial, trivial, Or.inl trivial⟩
  | addObjective pid t d pr u t1 t2 =>
      cases hq : alookup m.projects pid with
      | none => left; simp [step, ProjectManager.add_objective, hq]
      | some q =>
          right
          refine ⟨pid, { q with
              objectives := q.objectives ++
                [{ id := "obj_" ++ u.take 8, title := t, description := d,
                   created_at := t1, priority := pr }]
              last_active := t2 }, hk _ (alookup_mem hq), ?_⟩
          simp only [step, ProjectManager.add_objective, hq, ProjectManager.save_project]
          exact ⟨trivial, trivial, Or.inl trivial⟩
  | completeObjective pid oid t1 t2 =>
      cases hq : alookup m.projects pid with
      | none => left; simp [step, ProjectManager.complete_objective, hq]
      | some q =>
          cases hcf : completeFirst q.objectives oid t1 with
          | none => left; simp [step, ProjectManager.complete_objective, hq, hcf]
          | some objs =>
              right
              refine ⟨pid, { q with objectives := objs, last_active := t2 },
                hk _ (alookup_mem hq), ?_⟩
              simp only [step, ProjectManager.complete_objective, hq, hcf,
                ProjectManager.save_project]
              exact ⟨trivial, trivial, Or.inl trivial⟩

theorem keysOK_step (m : ProjectManager) (op : Op) (hk : KeysOK m) : KeysOK (step m op) := by
  rcases step_shape m op hk with h | ⟨pid, p, hid, hproj, _, _⟩
  · rw [h]; exact hk
  · intro kp hkp
    rw [hproj] at hkp
    rcases mem_dictInsert hkp with h1 | h1
    · rw [h1]; exact hid
    · exact hk kp h1

theorem focusOK_step (m : ProjectManager) (op : Op) (hk : KeysOK m) (hf : FocusOK m) :
    FocusOK (step m op) := by
  rcases step_shape m op hk with h | ⟨pid, p, hid, hproj, _, hfoc⟩
  · rw [h]; exact hf
  · intro pid0 hp
    rw [hproj]
    rcases hfoc with h1 | h1
    · rw [h1] at hp
      exact alookup_dictInsert_isSome (hf pid0 hp)
    · rw [h1] at hp
      cases hp
      rw [alookup_dictInsert_self]
      rfl

/-- The claim C1: every mutating operation serializes the mutated record
in full to `<project_id>.json` before returning, so the write-through
invariant `DiskSync` — every in-memory record has an on-disk file equal
to its current serialization — is preserved by every operation and holds
in every state reachable from a freshly loaded well-formed directory. -/
theorem c1_write_through :
    (∀ (m : ProjectManager) (op : Op), StoreInv m → StoreInv (step m op)) ∧
    (∀ (files : List (String × FileContent)) (ops : List Op), FilesOK files →
      StoreInv (run (initManager files) ops)) := by
  constructor
  · exact storeInv_step
  · intro files ops hOK
    exact storeInv_run _ _ (initManager_storeInv files hOK)

/-- The claim C9: in every state reachable from a freshly initialized
store by public operations, the focus pointer is unset or names a present
project (records are never removed, so it never dangles). -/
theorem c9_focus_invariant (files : List (String × FileContent)) (ops : List Op) :
    FocusOK (run (initManager files) ops) := by
  suffices h : ∀ (m : ProjectManager) (ops : List Op), KeysOK m → FocusOK m →
      KeysOK (run m ops) ∧ FocusOK (run m ops) by
    exact (h _ ops (initManager_keys files).2 (initManager_focusOK files)).2
  intro m ops hk hf
  induction ops generalizing m with
  | nil => exact ⟨hk, hf⟩
  | cons op ops ih => exact ih _ (keysOK_step m op hk) (focusOK_step m op hk hf)

/-- The claim C7: initialization over any directory mixing parsable and
unparsable record files completes (the embedding is total — no exception
escapes the per-file handler), skips each unparsable file, and produces
exactly one in-memory entry per parsable `*.json` file, keyed by the id
stored in the file. -/
theorem c7_partial_load (files : List (String × FileContent))
    (h : (parsedIds files).Nodup) :
    (initManager files).projects = parsedEntries files :=
  initManager_projects files h

/-- The claim C10: `load_all_projects` keys each record by the
`project_id` inside the file's content, not by the file's name, and
`save_project` writes to `<project_id>.json` (leaving every other file
untouched) — so a record loaded from `X.json` carrying id `Y` lives under
key `Y` and is saved back to `Y.json`, not `X.json`. -/
theorem c10_load_keys_by_content :
    (∀ (files : List (String × FileContent)), (parsedIds files).Nodup →
      ∀ f ∈ files, endsWithJson f.1 = true →
        ∀ p, parseFile f.2 = some p →
          alookup (initManager files).projects p.project_id = some p) ∧
    (∀ (m : ProjectManager) (p : ProjectConfig),
      alookup (m.save_project p).disk (p.project_id ++ ".json") =
        some (.record p.to_dict) ∧
      ∀ fname, fname ≠ p.project_id ++ ".json" →
        alookup (m.save_project p).disk fname = alookup m.disk fname) := by
  constructor
  · intro files h f hf hjson p hp
    rw [initManager_projects files h]
    apply mem_alookup h
    unfold parsedEntries
    apply List.mem_filterMap.mpr
    exact ⟨f, List.mem_filter.mpr ⟨hf, hjson⟩, by simp [hp]⟩
  · intro m p
    constructor
    · exact alookup_dictInsert_self _ _ _
    · intro fname hname
      exact alookup_dictInsert_ne hname

theorem objMono_refl (o : Objective) : ObjMono o o :=
  ⟨rfl, rfl, rfl, rfl, rfl, fun h => h⟩

theorem objMono_trans {o1 o2 o3 : Objective} (h1 : ObjMono o1 o2) (h2 : ObjMono o2 o3) :
    ObjMono o1 o3 :=
  ⟨h2.1.trans h1.1, h2.2.1.trans h1.2.1, h2.2.2.1.trans h1.2.2.1,
   h2.2.2.2.1.trans h1.2.2.2.1, h2.2.2.2.2.1.trans h1.2.2.2.2.1,
   fun h => h2.2.2.2.2.2 (h1.2.2.2.2.2 h)⟩

theorem get_congr {α : Type} {l l' : List α} (h : l' = l) (i : Nat)
    (h1 : i < l.length) (h2 : i < l'.length) : l'.get ⟨i, h2⟩ = l.get ⟨i, h1⟩ := by
  subst h
  rfl

theorem mono_refl (p : ProjectConfig) : Mono p p :=
  ⟨⟨[], (List.append_nil _).symm⟩, le_refl _, fun _ _ _ => objMono_refl _⟩

theorem mono_of_eq {p q : ProjectConfig} (hd : q.decisions = p.decisions)
    (ho : q.objectives = p.objectives) : Mono p q := by
  refine ⟨⟨[], by rw [hd, List.append_nil]⟩, by rw [ho], ?_⟩
  intro i h1 h2
  rw [get_congr ho i h1 h2]
  exact objMono_refl _

theorem mono_append_obj {p q : ProjectConfig} (o : Objective)
    (hd : q.decisions = p.decisions) (ho : q.objectives = p.objectives ++ [o]) :
    Mono p q := by
  refine ⟨⟨[], by rw [hd, List.append_nil]⟩, by rw [ho]; simp, ?_⟩
  intro i h1 h2
  have h1' : i < (p.objectives ++ [o]).length := by
    simp only [List.length_append]
    omega
  rw [get_congr ho i h1' h2]
  have : (p.objectives ++ [o]).get ⟨i, h1'⟩ = p.objectives.get ⟨i, h1⟩ := by
    simp only [List.get_eq_getElem]
    exact List.getElem_append_left h1
  rw [this]
  exact objMono_refl _

theorem mono_trans {p q r : ProjectConfig} (h1 : Mono p q) (h2 : Mono q r) : Mono p r := by
  obtain ⟨⟨t1, hd1⟩, hl1, he1⟩ := h1
  obtain ⟨⟨t2, hd2⟩, hl2, he2⟩ := h2
  refine ⟨⟨t1 ++ t2, by rw [hd2, hd1, List.append_assoc]⟩, le_trans hl1 hl2, ?_⟩
  intro i hp hr
  have hq : i < q.objectives.length := lt_of_lt_of_le hp hl1
  exact objMono_trans (he1 i hp hq) (he2 i hq hr)

theorem completeFirst_length {objs : List Objective} {oid now : String}
    {objs' : List Objective} (h : completeFirst objs oid now = some objs') :
    objs'.length = objs.length := by
  induction objs generalizing objs' with
  | nil => simp [completeFirst] at h
  | cons o rest ih =>
      by_cases ho : o.id = oid
      · simp [completeFirst, ho] at h
        rw [← h]
        simp
      · simp [completeFirst, ho] at h
        obtain ⟨a, ha, h2⟩ := h
        rw [← h2]
        simp [ih ha]

theorem completeFirst_get {objs : List Objective} {oid now : String}
    {objs' : List Objective} (h : completeFirst objs oid now = some objs') :
    ∀ i (h1 : i < objs.length) (h2 : i < objs'.length),
      ObjMono (objs.get ⟨i, h1⟩) (objs'.get ⟨i, h2⟩) := by
  induction objs generalizing objs' with
  | nil => simp [completeFirst] at h
  | cons o rest ih =>
      by_cases ho : o.id = oid
      · simp [completeFirst, ho] at h
        subst h
        intro i h1 h2
        cases i with
        | zero => refine ⟨?_, ?_, ?_, ?_, ?_, ?_⟩ <;> simp [ho]
        | succ n => exact objMono_refl _
      · simp [completeFirst, ho] at h
        obtain ⟨a, ha, h2⟩ := h
        subst h2
        intro i h1 h2
        cases i with
        | zero => exact objMono_refl _
        | succ n => exact ih ha n _ _

theorem set_focus_eq {m : ProjectManager} {pid : String} {q : ProjectConfig} (now : String)
    (hq : alookup m.projects pid = some q) :
    m.set_focus pid now =
      (true, ProjectManager.save_project
        { m with
            focused_project_id := some pid
            projects := dictInsert m.projects pid { q with last_active := now } }
        { q with last_active := now }) := by
  simp only [ProjectManager.set_focus, hq]

theorem update_status_eq {m : ProjectManager} {pid : String} {q : ProjectConfig}
    (st : ProjectStatus) (now : String) (hq : alookup m.projects pid = some q) :
    m.update_status pid st now =
      (true, ProjectManager.save_project
        { m with
            projects :=
              dictInsert m.projects pid { q with status := st, last_active := now } }
        { q with status := st, last_active := now }) := by
  simp only [ProjectManager.update_status, hq]

theorem add_decision_eq {m : ProjectManager} {pid : String} {q : ProjectConfig}
    (dec rs : String) (tags : Option (List String)) (u t1 t2 : String)
    (hq : alookup m.projects pid = some q) :
    m.add_decision pid dec rs tags u t1 t2 =
      (some { id := "dec_" ++ u.take 8, decision := dec, reasoning := rs,
              timestamp := t1, tags := tags.getD [] },
       ProjectManager.save_project
        { m with
            projects :=
              dictInsert m.projects pid
                { q with
                    decisions := q.decisions ++
                      [{ id := "dec_" ++ u.take 8, decision := dec, reasoning := rs,
                         timestamp := t1, tags := tags.getD [] }]
                    last_active := t2 } }
        { q with
            decisions := q.decisions ++
              [{ id := "dec_" ++ u.take 8, decision := dec, reasoning := rs,
                 timestamp := t1, tags := tags.getD [] }]
            last_active := t2 }) := by
  simp only [ProjectManager.add_decision, hq]

theorem add_objective_eq {m : ProjectManager} {pid : String} {q : ProjectConfig}
    (t d pr u t1 t2 : String) (hq : alookup m.projects pid = some q) :
    m.add_objective pid t d pr u t1 t2 =
      (some { id := "obj_" ++ u.take 8, title := t, description := d,
              created_at := t1, priority := pr },
       ProjectManager.save_project
        { m with
            projects :=
              dictInsert m.projects pid
                { q with
                    objectives := q.objectives ++
                      [{ id := "obj_" ++ u.take 8, title := t, description := d,
                         created_at := t1, priority := pr }]
                    last_active := t2 } }
        { q with
            objectives := q.objectives ++
              [{ id := "obj_" ++ u.take 8, title := t, description := d,
                 created_at := t1, priority := pr }]
            last_active := t2 }) := by
  simp only [ProjectManager.add_objective, hq]

theorem complete_objective_eq2 {m : ProjectManager} {pid : String} {q : ProjectConfig}
    {objs : List Objective} (oid n1 n2 : String) (hq : alookup m.projects pid = some q)
    (hcf : completeFirst q.objectives oid n1 = some objs) :
    m.complete_objective pid oid n1 n2 =
      (true, ProjectManager.save_project
        { m with
            projects :=
              dictInsert m.projects pid { q with objectives := objs, last_active := n2 } }
        { q with objectives := objs, last_active := n2 }) := by
  simp only [ProjectManager.complete_objective, hq, hcf]

theorem mono_append_dec {p q : ProjectConfig} (t : List Decision)
    (hd : q.decisions = p.decisions ++ t) (ho : q.objectives = p.objectives) : Mono p q := by
  refine ⟨⟨t, hd⟩, by rw [ho], ?_⟩
  intro i h1 h2
  rw [get_congr ho i h1 h2]
  exact objMono_refl _

theorem create_projects_eq (m : ProjectManager) (n r : String) (w : Option (List String))
    (d : String) (a : String → String) (u t1 t2 : String) :
    (m.create_project n r w d a u t1 t2).2.projects =
      dictInsert m.projects ("proj_" ++ u.take 12) (m.create_project n r w d a u t1 t2).1 := by
  simp only [ProjectManager.create_project, ProjectManager.save_project]
  split <;> rfl

theorem mono_step_update {m : ProjectManager} {pid : String} {p : ProjectConfig}
    (pid' : String) (st : ProjectStatus) (now : String)
    (hp : alookup m.projects pid = some p) :
    ∃ p', alookup (m.update_status pid' st now).2.projects pid = some p' ∧ Mono p p' ∧
      p'.decisions = p.decisions ∧ p'.objectives.length = p.objectives.length := by
  cases hq : alookup m.projects pid' with
  | none =>
      refine ⟨p, ?_, mono_refl p, rfl, rfl⟩
      simp only [ProjectManager.update_status, hq]
      exact hp
  | some q =>
      by_cases hpp : pid = pid'
      · subst hpp
        rw [hp] at hq
        cases hq
        refine ⟨{ p with status := st, last_active := now }, ?_, mono_of_eq rfl rfl, rfl, rfl⟩
        rw [update_status_eq st now hp]
        exact alookup_dictInsert_self _ _ _
      · refine ⟨p, ?_, mono_refl p, rfl, rfl⟩
        rw [update_status_eq st now hq]
        show alookup
          (dictInsert m.projects pid' { q with status := st, last_active := now }) pid = some p
        rw [alookup_dictInsert_ne hpp]
        exact hp

theorem mono_step (m : ProjectManager) (op : Op) (pid : String) (p : ProjectConfig)
    (hfresh : opFresh m op = true) (hp : alookup m.projects pid = some p) :
    ∃ p', alookup (step m op).projects pid = some p' ∧ Mono p p' ∧
      (isAddDecisionFor op pid = false → p'.decisions = p.decisions) ∧
      (isAddObjectiveFor op pid = false →
        p'.objectives.length = p.objectives.length) := by
  cases op with
  | create n r w d a u t1 t2 =>
      have hne : ¬ pid = "proj_" ++ u.take 12 := by
        intro he
        simp only [opFresh] at hfresh
        rw [← he, hp] at hfresh
        simp at hfresh
      refine ⟨p, ?_, mono_refl p, fun _ => rfl, fun _ => rfl⟩
      show alookup (m.create_project n r w d a u t1 t2).2.projects pid = some p
      rw [create_projects_eq, alookup_dictInsert_ne hne]
      exact hp
  | setFocus pid' now =>
      cases hq : alookup m.projects pid' with
      | none =>
          refine ⟨p, ?_, mono_refl p, fun _ => rfl, fun _ => rfl⟩
          show alookup (m.set_focus pid' now).2.projects pid = some p
          simp only [ProjectManager.set_focus, hq]
          exact hp
      | some q =>
          by_cases hpp : pid = pid'
          · subst hpp
            rw [hp] at hq
            cases hq
            refine ⟨{ p with last_active := now }, ?_, mono_of_eq rfl rfl,
              fun _ => rfl, fun _ => rfl⟩
            show alookup (m.set_focus pid now).2.projects pid = some _
            rw [set_focus_eq now hp]
            exact alookup_dictInsert_self _ _ _
          · refine ⟨p, ?_, mono_refl p, fun _ => rfl, fun _ => rfl⟩
            show alookup (m.set_focus pid' now).2.projects pid = some p
            rw [set_focus_eq now hq]
            show alookup
              (dictInsert m.projects pid' { q with last_active := now }) pid = some p
            rw [alookup_dictInsert_ne hpp]
            exact hp
  | updateStatus pid' st now =>
      obtain ⟨p', h1, h2, h3, h4⟩ := mono_step_update pid' st now hp
      exact ⟨p', h1, h2, fun _ => h3, fun _ => h4⟩
  | pause pid' now =>
      obtain ⟨p', h1, h2, h3, h4⟩ := mono_step_update pid' .PAUSED now hp
      exact ⟨p', h1, h2, fun _ => h3, fun _ => h4⟩
  | resume pid' now =>
      obtain ⟨p', h1, h2, h3, h4⟩ := mono_step_update pid' .ACTIVE now hp
      exact ⟨p', h1, h2, fun _ => h3, fun _ => h4⟩
  | archive pid' now =>
      obtain ⟨p', h1, h2, h3, h4⟩ := mono_step_update pid' .ARCHIVED now hp
      exact ⟨p', h1, h2, fun _ => h3, fun _ => h4⟩
  | addDecision pid' dec rs tags u t1 t2 =>
      cases hq : alookup m.projects pid' with
      | none =>
          refine ⟨p, ?_, mono_refl p, fun _ => rfl, fun _ => rfl⟩
          show alookup (m.add_decision pid' dec rs tags u t1 t2).2.projects pid = some p
          simp only [ProjectManager.add_decision, hq]
          exact hp
      | some q =>
          by_cases hpp : pid = pid'
          · subst hpp
            rw [hp] at hq
            cases hq
            refine ⟨{ p with
                decisions := p.decisions ++
                  [{ id := "dec_" ++ u.take 8, decision := dec, reasoning := rs,
                     timestamp := t1, tags := tags.getD [] }]
                last_active := t2 }, ?_, mono_append_dec
              [{ id := "dec_" ++ u.take 8, decision := dec, reasoning := rs,
                 timestamp := t1, tags := tags.getD [] }] rfl rfl,
              ?_, fun _ => rfl⟩
            · show alookup (m.add_decision pid dec rs tags u t1 t2).2.projects pid = some _
              rw [add_decision_eq dec rs tags u t1 t2 hp]
              exact alookup_dictInsert_self _ _ _
            · intro hfalse
              simp [isAddDecisionFor] at hfalse
          · refine ⟨p, ?_, mono_refl p, fun _ => rfl, fun _ => rfl⟩
            show alookup (m.add_decision pid' dec rs tags u t1 t2).2.projects pid = some p
            rw [add_decision_eq dec rs tags u t1 t2 hq]
            show alookup (dictInsert m.projects pid'
              { q with
                  decisions := q.decisions ++
                    [{ id := "dec_" ++ u.take 8, decision := dec, reasoning := rs,
                       timestamp := t1, tags := tags.getD [] }]
                  last_active := t2 }) pid = some p
            rw [alookup_dictInsert_ne hpp]
            exact hp
  | addObjective pid' t d pr u t1 t2 =>
      cases hq : alookup m.projects pid' with
      | none =>
          refine ⟨p, ?_, mono_refl p, fun _ => rfl, fun _ => rfl⟩
          show alookup (m.add_objective pid' t d pr u t1 t2).2.projects pid = some p
          simp only [ProjectManager.add_objective, hq]
          exact hp
      | some q =>
          by_cases hpp : pid = pid'
          · subst hpp
            rw [hp] at hq
            cases hq
            refine ⟨{ p with
                objectives := p.objectives ++
                  [{ id := "obj_" ++ u.take 8, title := t, description := d,
                     created_at := t1, priority := pr }]
                last_active := t2 }, ?_, mono_append_obj
              { id := "obj_" ++ u.take 8, title := t, description := d,
                created_at := t1, priority := pr } rfl rfl,
              fun _ => rfl, ?_⟩
            · show alookup (m.add_objective pid t d pr u t1 t2).2.projects pid = some _
              rw [add_objective_eq t d pr u t1 t2 hp]
              exact alookup_dictInsert_self _ _ _
            · intro hfalse
              simp [isAddObjectiveFor] at hfalse
          · refine ⟨p, ?_, mono_refl p, fun _ => rfl, fun _ => rfl⟩
            show alookup (m.add_objective pid' t d pr u t1 t2).2.projects pid = some p
            rw [add_objective_eq t d pr u t1 t2 hq]
            show alookup (dictInsert m.projects pid'
              { q with
                  objectives := q.objectives ++
                    [{ id := "obj_" ++ u.take 8, title := t, description := d,
                       created_at := t1, priority := pr }]
                  last_active := t2 }) pid = some p
            rw [alookup_dictInsert_ne hpp]
            exact hp
  | completeObjective pid' oid t1 t2 =>
      cases hq : alookup m.projects pid' with
      | none =>
          refine ⟨p, ?_, mono_refl p, fun _ => rfl, fun _ => rfl⟩
          show alookup (m.complete_objective pid' oid t1 t2).2.projects pid = some p
          simp only [ProjectManager.complete_objective, hq]
          exact hp
      | some q =>
          cases hcf : completeFirst q.objectives oid t1 with
          | none =>
              refine ⟨p, ?_, mono_refl p, fun _ => rfl, fun _ => rfl⟩
              show alookup (m.complete_objective pid' oid t1 t2).2.projects pid = some p
              simp only [ProjectManager.complete_objective, hq, hcf]
              exact hp
          | some objs =>
              by_cases hpp : pid = pid'
              · subst hpp
                rw [hp] at hq
                cases hq
                have hlen : objs.length = p.objectives.length := completeFirst_length hcf
                refine ⟨{ p with objectives := objs, last_active := t2 }, ?_,
                  ⟨⟨[], (List.append_nil _).symm⟩, le_of_eq hlen.symm, ?_⟩,
                  fun _ => rfl, fun _ => hlen⟩
                · show alookup (m.complete_objective pid oid t1 t2).2.projects pid = some _
                  rw [complete_objective_eq2 oid t1 t2 hp hcf]
                  exact alookup_dictInsert_self _ _ _
                · intro i h1 h2
                  exact completeFirst_get hcf i h1 h2
              · refine ⟨p, ?_, mono_refl p, fun _ => rfl, fun _ => rfl⟩
                show alookup (m.complete_objective pid' oid t1 t2).2.projects pid = some p
                rw [complete_objective_eq2 oid t1 t2 hq hcf]
                show alookup (dictInsert m.projects pid'
                  { q with objectives := objs, last_active := t2 }) pid = some p
                rw [alookup_dictInsert_ne hpp]
                exact hp

/-- The claim C8: under every sequence of public operations whose
`create` calls receive non-colliding ids, a surviving project's decisions
list only ever grows by appending (`Mono` carries the old list as a
listwise-equal ones), its objectives list never shrinks and each existing
entry keeps its identity fields with status monotone into `completed`;
and a single step that is not `add_decision` (resp. `add_objective`) for
the project leaves its decisions unchanged (resp. its objectives count
unchanged), so the collections grow only through their add operations. -/
theorem c8_monotone :
    (∀ (m : ProjectManager) (ops : List Op) (pid : String) (p : ProjectConfig),
      runFresh m ops = true → alookup m.projects pid = some p →
      ∃ p', alookup (run m ops).projects pid = some p' ∧ Mono p p') ∧
    (∀ (m : ProjectManager) (op : Op) (pid : String) (p p' : ProjectConfig),
      opFresh m op = true → alookup m.projects pid = some p →
      alookup (step m op).projects pid = some p' →
      (isAddDecisionFor op pid = false → p'.decisions = p.decisions) ∧
      (isAddObjectiveFor op pid = false →
        p'.objectives.length = p.objectives.length)) := by
  constructor
  · intro m ops pid p hfresh hp
    induction ops generalizing m p with
    | nil => exact ⟨p, hp, mono_refl p⟩
    | cons op ops ih =>
        have hfresh' : opFresh m op = true ∧ runFresh (step m op) ops = true := by
          have h0 : runFresh m (op :: ops) = (opFresh m op && runFresh (step m op) ops) := rfl
          rw [h0, Bool.and_eq_true] at hfresh
          exact hfresh
        obtain ⟨p1, hp1, hm1, _, _⟩ := mono_step m op pid p hfresh'.1 hp
        obtain ⟨p', hp', hm'⟩ := ih (step m op) p1 hfresh'.2 hp1
        refine ⟨p', ?_, mono_trans hm1 hm'⟩
        show alookup (run (step m op) ops).projects pid = some p'
        exact hp'
  · intro m op pid p p' h1 hp hp'
    obtain ⟨p'', hp'', _, hd, ho⟩ := mono_step m op pid p h1 hp
    rw [hp''] at hp'
    cases hp'
    exact ⟨hd, ho⟩

/-- Witness for C1 on a directory with one valid and one malformed file,
followed by a `set_focus`. -/
theorem c1_write_through_witness :
    FilesOK w1files ∧ StoreInv (run (initManager w1files) [Op.setFocus "p1" "T9"]) := by
  have hOK : FilesOK w1files := by
    refine ⟨?_, by decide⟩
    show (w1files.map Prod.fst).Nodup
    rw [show w1files.map Prod.fst = ["p1.json", "bad.json"] from rfl]
    simp
  exact ⟨hOK, c1_write_through.2 w1files [Op.setFocus "p1" "T9"] hOK⟩

/-- Witness for C3 on a project with 15 decisions: the export returns
exactly `min 10 15 = 10` of them, most-recent first. -/
theorem c3_export_context_witness :
    (alookup w3m.projects "p1" = some w3proj) ∧
    (∃ ctx kept dropped,
      w3m.export_context "p1" = some ctx ∧
      ctx.project = ⟨w3proj.project_id, w3proj.name, w3proj.description, w3proj.root_path,
        w3proj.status.value, w3proj.last_active⟩ ∧
      w3proj.decisions.Perm (kept ++ dropped) ∧
      ctx.recent_decisions = kept.map Decision.toOut ∧
      kept.length = min 10 w3proj.decisions.length ∧
      List.Pairwise (fun a b : Decision => b.timestamp ≤ a.timestamp) kept ∧
      (∀ a ∈ kept, ∀ b ∈ dropped, b.timestamp ≤ a.timestamp) ∧
      ctx.pending_objectives =
        (w3proj.objectives.filter
          (fun o => decide (o.status ≠ "completed"))).map Objective.toOut ∧
      ctx.statistics.total_decisions = w3proj.decisions.length ∧
      ctx.statistics.total_objectives = w3proj.objectives.length ∧
      ctx.statistics.completed_objectives =
        (w3proj.objectives.filter (fun o => decide (o.status = "completed"))).length ∧
      ctx.statistics.watch_directories = w3proj.watch_dirs.length) :=
  ⟨by decide, (c3_export_context w3m "p1").2 w3proj (by decide)⟩

/-- Witness for C5: focusing the known project `p1` of `w5m`. -/
theorem c5_set_focus_witness :
    ((w5m.set_focus "p1" "T9").1 = true) ∧
    ((w5m.set_focus "p1" "T9").2.get_focused_project =
      some { w1proj with last_active := "T9" }) ∧
    (alookup (w5m.set_focus "p1" "T9").2.disk ("p1" ++ ".json") =
      some (.record ({ w1proj with last_active := "T9" } : ProjectConfig).to_dict)) := by
  obtain ⟨h1, h2, h3, h4, h5, h6⟩ :=
    (c5_set_focus w5m "p1" "T9").2 w1proj (by decide) (by decide)
  exact ⟨h1, h3 (by decide), h5⟩

/-- Witness for C6: creating the first project of an empty store. -/
theorem c6_create_project_witness :
    ((ProjectManager.create_project {} "Alpha" "/tmp/alpha" none ""
        (fun s => s) "0123456789abcdef0123456789abcdef" "T1" "T2").1.status =
      ProjectStatus.ACTIVE) ∧
    (∃ t : String,
      (ProjectManager.create_project {} "Alpha" "/tmp/alpha" none ""
        (fun s => s) "0123456789abcdef0123456789abcdef" "T1" "T2").1.project_id =
        "proj_" ++ t ∧ t.toList.length = 12 ∧ ∀ c ∈ t.toList, isHexChar c = true) ∧
    ((ProjectManager.create_project {} "Alpha" "/tmp/alpha" none ""
        (fun s => s) "0123456789abcdef0123456789abcdef" "T1" "T2").2.focused_project_id =
      some (ProjectManager.create_project {} "Alpha" "/tmp/alpha" none ""
        (fun s => s) "0123456789abcdef0123456789abcdef" "T1" "T2").1.project_id) := by
  obtain ⟨h1, h2, h3, h4, h5, h6, h7, h8, h9, h10, h11⟩ :=
    c6_create_project {} "Alpha" "/tmp/alpha" "" none (fun s => s)
      "0123456789abcdef0123456789abcdef" "T1" "T2" _ _ rfl
  exact ⟨h3, h2 (by decide) (by decide), h11 rfl⟩

/-- Witness for C7: loading one valid plus one malformed file yields
exactly the valid record. -/
theorem c7_partial_load_witness :
    (parsedIds w1files).Nodup ∧ (initManager w1files).projects = parsedEntries w1files := by
  have h : (parsedIds w1files).Nodup := by
    rw [show parsedIds w1files = ["p1"] from rfl]
    simp
  exact ⟨h, c7_partial_load w1files h⟩

/-- Witness for C8: adding an objective keeps the completed objective of
`w8proj` completed and its decisions intact. -/
theorem c8_monotone_witness :
    (runFresh w8m [Op.addObjective "p1" "Ship" "" "medium" "abcdef012345" "T1" "T2"] = true) ∧
    (alookup w8m.projects "p1" = some w8proj) ∧
    (∃ p', alookup
        (run w8m [Op.addObjective "p1" "Ship" "" "medium" "abcdef012345" "T1" "T2"]).projects
        "p1" = some p' ∧ Mono w8proj p') :=
  ⟨by decide, by decide,
   c8_monotone.1 w8m [Op.addObjective "p1" "Ship" "" "medium" "abcdef012345" "T1" "T2"]
     "p1" w8proj (by decide) (by decide)⟩

/-- Witness for C10: a file `X.json` carrying id `p1` is loaded under key
`p1`, and saving writes `p1.json`, leaving `X.json` alone. -/
theorem c10_load_keys_by_content_witness :
    ((parsedIds w10files).Nodup ∧ parseFile (FileContent.record w1dict) = some w1proj) ∧
    alookup (initManager w10files).projects w1proj.project_id = some w1proj ∧
    alookup (ProjectManager.save_project {} w1proj).disk (w1proj.project_id ++ ".json") =
      some (.record w1proj.to_dict) ∧
    alookup (ProjectManager.save_project {} w1proj).disk "X.json" =
      alookup ({} : ProjectManager).disk "X.json" := by
  have h : (parsedIds w10files).Nodup := by
    rw [show parsedIds w10files = ["p1"] from rfl]
    simp
  exact ⟨⟨h, by decide⟩,
    c10_load_keys_by_content.1 w10files h ("X.json", FileContent.record w1dict)
      (by decide) (by decide) w1proj (by decide),
    (c10_load_keys_by_content.2 {} w1proj).1,
    (c10_load_keys_by_content.2 {} w1proj).2 "X.json" (by decide)⟩
